import Mathlib

/-!
Shallow embedding of the mcpd core components (event store, task manager,
state store, rate limiters, circuit breaker, retry executor, access control,
watchdog), translated from the C++ headers under src/, together with theorems
settling the behavioural claims about them.

Modelling conventions:
* `millis()` is abstracted as an explicit `now : Nat` argument supplied per
  public call (the device clock); 32-bit wraparound subtraction of timestamps
  is `wrapSub32`.
* C++ `float` quantities (token counts, rates, costs) are modelled as `Rat`.
* `std::map` is an association list kept sorted by key (`mapInsert`,
  `mapFind`), matching iteration order of the C++ container.
* Listener callbacks are modelled by returning the list of notification
  payloads a call would deliver, in delivery order.
-/

namespace Mcpd

/-- 32-bit wraparound subtraction `a - b` on unsigned timestamps, as computed
by C++ `unsigned long` arithmetic on the 32-bit targets this code runs on. -/
def wrapSub32 (a b : Nat) : Nat :=
  (a % 2 ^ 32 + (2 ^ 32 - b % 2 ^ 32)) % 2 ^ 32

/-- Lexicographic comparison of character codes, as computed by `strcmp` on
the `std::map` string keys. -/
def charListLt : List Char → List Char → Bool
  | [], [] => false
  | [], _ :: _ => true
  | _ :: _, [] => false
  | a :: as, b :: bs =>
    if a.toNat < b.toNat then true
    else if b.toNat < a.toNat then false
    else charListLt as bs

/-- `strcmp(a, b) < 0` on strings. -/
def strLt (a b : String) : Bool :=
  charListLt a.data b.data

/-- Lookup in a sorted association list (`std::map::find`). -/
def mapFind {α : Type} (k : String) : List (String × α) → Option α
  | [] => none
  | (k₂, v) :: rest => if k = k₂ then some v else mapFind k rest

/-- Insert-or-assign in a sorted association list (`std::map::operator[]`
followed by assignment), keeping keys in ascending order. -/
def mapInsert {α : Type} (k : String) (v : α) : List (String × α) → List (String × α)
  | [] => [(k, v)]
  | (k₂, v₂) :: rest =>
    if strLt k k₂ then (k, v) :: (k₂, v₂) :: rest
    else if k = k₂ then (k, v) :: rest
    else (k₂, v₂) :: mapInsert k v rest

-- ═══════════════════════════════════════════════════════════════════════
-- Event store (src/MCPEventStore.h)
-- ═══════════════════════════════════════════════════════════════════════

/-- Severity levels of `MCPEventStore.h`. -/
inductive EventSeverity
  | debug
  | info
  | warning
  | error
  | critical
deriving DecidableEq, Repr

/-- Numeric value of a severity (`static_cast<uint8_t>`). -/
def EventSeverity.toNat : EventSeverity → Nat
  | .debug => 0
  | .info => 1
  | .warning => 2
  | .error => 3
  | .critical => 4

/-- A stored event (`struct Event`). -/
structure Event where
  seq : Nat
  timestampMs : Nat
  tag : String
  data : String
  severity : EventSeverity
deriving DecidableEq, Repr

instance : Inhabited Event :=
  ⟨⟨0, 0, "", "", .info⟩⟩

/-- The ring-buffer event store (`class EventStore`).  `events` is the
backing vector `_events`, always of length `capacity`. -/
structure EventStore where
  capacity : Nat
  seq : Nat
  count : Nat
  head : Nat
  events : List Event
deriving Repr

/-- `EventStore::EventStore(capacity)`: capacity clamped to at least 1,
backing vector resized to `capacity` default-constructed events. -/
def EventStore.new (capacity : Nat) : EventStore :=
  let cap := if capacity < 1 then 1 else capacity
  { capacity := cap, seq := 0, count := 0, head := 0
    events := List.replicate cap default }

/-- `EventStore::emit`: store a new event at the head slot, advance the head,
bump the count up to capacity, and return the assigned sequence number
(`_seq` is `uint32_t`). -/
def EventStore.emit (st : EventStore) (tag data : String) (severity : EventSeverity)
    (now : Nat) : EventStore × Nat :=
  let s := st.seq
  let e : Event := ⟨s, now, tag, data, severity⟩
  ({ st with
      events := st.events.set st.head e
      head := (st.head + 1) % st.capacity
      count := if st.count < st.capacity then st.count + 1 else st.count
      seq := (st.seq + 1) % 2 ^ 32 },
   s)

/-- `EventStore::_collect`: events matching a predicate, oldest first. -/
def EventStore.collect (st : EventStore) (pred : Event → Bool) : List Event :=
  if st.count = 0 then []
  else
    let start := if st.count < st.capacity then 0 else st.head
    ((List.range st.count).map
      (fun i => st.events.getD ((start + i) % st.capacity) default)).filter pred

/-- `EventStore::all`: all stored events, oldest first. -/
def EventStore.all (st : EventStore) : List Event :=
  st.collect (fun _ => true)

/-- `EventStore::sinceSeq`: events whose sequence number is `>=` the given
bound. -/
def EventStore.sinceSeq (st : EventStore) (bound : Nat) : List Event :=
  st.collect (fun e => decide (bound ≤ e.seq))

/-- One emission request: the arguments of a single `emit` call together
with its `millis()` reading. -/
structure EmitReq where
  tag : String
  data : String
  severity : EventSeverity
  now : Nat
deriving DecidableEq, Repr

instance : Inhabited EmitReq :=
  ⟨⟨"", "", .info, 0⟩⟩

/-- Run a sequence of emissions against a store. -/
def emitList (st : EventStore) (xs : List EmitReq) : EventStore :=
  xs.foldl (fun s r => (s.emit r.tag r.data r.severity r.now).1) st

/-- Reference model of the event log: all emitted events in emission order,
carrying the 32-bit sequence numbers `emit` assigns. -/
def ghostEvents (xs : List EmitReq) : List Event :=
  (List.range xs.length).map (fun i =>
    { seq := i % 2 ^ 32
      timestampMs := (xs.getD i default).now
      tag := (xs.getD i default).tag
      data := (xs.getD i default).data
      severity := (xs.getD i default).severity })

/-- Ring-buffer abstraction invariant: a store built from `xs` emissions
holds exactly the last `min xs.length capacity` ghost events, contiguous
from the oldest slot. -/
def storeInv (cap : Nat) (xs : List EmitReq) (st : EventStore) : Prop :=
  st.capacity = cap ∧
  st.seq = xs.length % 2 ^ 32 ∧
  st.count = min xs.length cap ∧
  st.head = xs.length % cap ∧
  st.events.length = cap ∧
  ∀ i, i < st.count →
    st.events.getD (((if st.count < st.capacity then 0 else st.head) + i) % cap)
        default
      = (ghostEvents xs).getD (xs.length - st.count + i) default

-- ═══════════════════════════════════════════════════════════════════════
-- Task manager (src/MCPTask.h)
-- ═══════════════════════════════════════════════════════════════════════

/-- Task status per MCP 2025-11-25 (`enum class TaskStatus`). -/
inductive TaskStatus
  | working
  | inputRequired
  | completed
  | failed
  | cancelled
deriving DecidableEq, Repr

/-- `isTerminalStatus`. -/
def isTerminalStatus (s : TaskStatus) : Bool :=
  s == .completed || s == .failed || s == .cancelled

/-- One MCP task (`struct MCPTask`); fields not touched by the manager's
state-changing operations (poll interval, immediate response) are omitted. -/
structure MCPTask where
  taskId : String
  status : TaskStatus := .working
  statusMessage : String := ""
  createdAt : String := ""
  lastUpdatedAt : String := ""
  ttl : Int := -1
  resultJson : String := ""
  hasResult : Bool := false
  toolName : String := ""
deriving DecidableEq, Repr

/-- Two-digit zero padding used by `snprintf("%02lu")` for values below 100. -/
def pad2 (n : Nat) : String :=
  if n < 10 then "0" ++ toString n else toString n

/-- `TaskManager::_isoNow`: a `millis()`-derived pseudo ISO-8601 stamp. -/
def isoNow (ms : Nat) : String :=
  let secs := ms / 1000
  let mins := secs / 60
  let hrs := mins / 60
  "1970-01-01T" ++ pad2 (hrs % 24) ++ ":" ++ pad2 (mins % 60) ++ ":"
    ++ pad2 (secs % 60) ++ "Z"

/-- `class TaskManager`: the task map (`std::map<String, MCPTask>`, kept
sorted by key) plus configuration. -/
structure TaskManager where
  tasks : List (String × MCPTask) := []
  enabled : Bool := false
  maxTasks : Nat := 16
  defaultPollInterval : Nat := 5000
  nextId : Nat := 1
deriving Repr

/-- `TaskManager::_generateId`: `task-<nextId++>` (`_nextId` is `uint32_t`). -/
def TaskManager.generateId (m : TaskManager) : String × TaskManager :=
  ("task-" ++ toString (m.nextId % 2 ^ 32), { m with nextId := (m.nextId + 1) % 2 ^ 32 })

/-- Remove the first task (in key order) whose status is terminal. -/
def eraseFirstTerminal : List (String × MCPTask) → List (String × MCPTask)
  | [] => []
  | (k, t) :: rest =>
    if isTerminalStatus t.status then rest else (k, t) :: eraseFirstTerminal rest

/-- `TaskManager::_expireOldTasks`: when the map has grown past
`maxTasks * 2`, remove the first terminal task; the loop body ends with an
unconditional `break`, so at most one task is removed per call. -/
def TaskManager.expireOldTasks (m : TaskManager) : TaskManager :=
  if m.tasks.isEmpty then m
  else if m.tasks.length > m.maxTasks * 2 then
    { m with tasks := eraseFirstTerminal m.tasks }
  else m

/-- `TaskManager::createTask`: allocate a fresh id and insert a task in
state `working`. -/
def TaskManager.createTask (m : TaskManager) (toolName : String) (requestedTtl : Int)
    (now : Nat) : String × TaskManager :=
  let (id, m₁) := m.generateId
  let task : MCPTask :=
    { taskId := id
      status := .working
      statusMessage := "The operation is now in progress."
      toolName := toolName
      createdAt := isoNow now
      lastUpdatedAt := isoNow now
      ttl := requestedTtl }
  (id, { m₁ with tasks := mapInsert id task m₁.tasks })

/-- `TaskManager::getTask` (which first runs `_expireOldTasks`). -/
def TaskManager.getTask (m : TaskManager) (taskId : String) :
    Option MCPTask × TaskManager :=
  let m₁ := m.expireOldTasks
  (mapFind taskId m₁.tasks, m₁)

/-- `TaskManager::updateStatus`: no-op on missing or terminal tasks; the
"Validate transitions" comment in the source guards nothing, so any
non-terminal task may be moved to any status, including `completed`. -/
def TaskManager.updateStatus (m : TaskManager) (taskId : String)
    (newStatus : TaskStatus) (message : String) (now : Nat) : Bool × TaskManager :=
  match m.getTask taskId with
  | (none, m₁) => (false, m₁)
  | (some task, m₁) =>
    if isTerminalStatus task.status then (false, m₁)
    else
      let task₂ := { task with
        status := newStatus
        statusMessage := if message.isEmpty then task.statusMessage else message
        lastUpdatedAt := isoNow now }
      (true, { m₁ with tasks := mapInsert taskId task₂ m₁.tasks })

/-- `TaskManager::completeTask`: move a non-terminal task to `completed`
and attach the result. -/
def TaskManager.completeTask (m : TaskManager) (taskId resultJson : String)
    (now : Nat) : Bool × TaskManager :=
  match m.getTask taskId with
  | (none, m₁) => (false, m₁)
  | (some task, m₁) =>
    if isTerminalStatus task.status then (false, m₁)
    else
      let task₂ := { task with
        status := .completed
        statusMessage := "Task completed successfully."
        lastUpdatedAt := isoNow now
        resultJson := resultJson
        hasResult := true }
      (true, { m₁ with tasks := mapInsert taskId task₂ m₁.tasks })

/-- `TaskManager::failTask`. -/
def TaskManager.failTask (m : TaskManager) (taskId errorMessage : String)
    (now : Nat) : Bool × TaskManager :=
  match m.getTask taskId with
  | (none, m₁) => (false, m₁)
  | (some task, m₁) =>
    if isTerminalStatus task.status then (false, m₁)
    else
      let task₂ := { task with
        status := .failed
        statusMessage := errorMessage
        lastUpdatedAt := isoNow now }
      (true, { m₁ with tasks := mapInsert taskId task₂ m₁.tasks })

/-- `TaskManager::cancelTask`. -/
def TaskManager.cancelTask (m : TaskManager) (taskId : String)
    (now : Nat) : Bool × TaskManager :=
  match m.getTask taskId with
  | (none, m₁) => (false, m₁)
  | (some task, m₁) =>
    if isTerminalStatus task.status then (false, m₁)
    else
      let task₂ := { task with
        status := .cancelled
        statusMessage := "The task was cancelled by request."
        lastUpdatedAt := isoNow now }
      (true, { m₁ with tasks := mapInsert taskId task₂ m₁.tasks })

/-- One state-changing `TaskManager` operation, for quantifying over
arbitrary operation sequences. -/
inductive TaskOp
  | create (toolName : String) (requestedTtl : Int)
  | update (taskId : String) (newStatus : TaskStatus) (message : String)
  | complete (taskId resultJson : String)
  | fail (taskId errorMessage : String)
  | cancel (taskId : String)
deriving DecidableEq, Repr

/-- Apply one operation to the manager. -/
def TaskManager.applyOp (m : TaskManager) (op : TaskOp) (now : Nat) : TaskManager :=
  match op with
  | .create toolName requestedTtl => (m.createTask toolName requestedTtl now).2
  | .update taskId newStatus message => (m.updateStatus taskId newStatus message now).2
  | .complete taskId resultJson => (m.completeTask taskId resultJson now).2
  | .fail taskId errorMessage => (m.failTask taskId errorMessage now).2
  | .cancel taskId => (m.cancelTask taskId now).2

/-- The claimed invariant: every task whose status is `completed` carries a
result. -/
def taskInv (m : TaskManager) : Bool :=
  m.tasks.all (fun p => !(p.2.status == .completed) || p.2.hasResult)

-- ═══════════════════════════════════════════════════════════════════════
-- State store (src/MCPStateStore.h)
-- ═══════════════════════════════════════════════════════════════════════

/-- A stored key-value entry (`struct StateEntry`). -/
structure StateEntry where
  value : String
  lastAccess : Nat := 0
  createdAt : Nat := 0
  ttlMs : Nat := 0
  dirty : Bool := false
deriving DecidableEq, Repr

/-- A buffered transactional write (`struct TxEntry`). -/
structure TxEntry where
  value : String
  ttlMs : Nat
deriving DecidableEq, Repr

/-- One change-listener notification payload `(key, oldValue, newValue)`. -/
structure Notification where
  key : String
  oldVal : String
  newVal : String
deriving DecidableEq, Repr

/-- `class StateStore`: entries and transaction buffer are `std::map`s kept
sorted by key. -/
structure StateStore where
  entries : List (String × StateEntry) := []
  maxEntries : Nat := 0
  inTransaction : Bool := false
  txBuffer : List (String × TxEntry) := []
deriving Repr

/-- Erase a key from an association list (`std::map::erase`). -/
def mapErase {α : Type} (k : String) : List (String × α) → List (String × α)
  | [] => []
  | (k₂, v) :: rest => if k = k₂ then rest else (k₂, v) :: mapErase k rest

/-- The `_evictOldest` scan: the entry with the smallest `lastAccess`,
earliest key winning ties (`<` comparison against the running minimum). -/
def oldestEntry (e : String × StateEntry) :
    List (String × StateEntry) → String × StateEntry
  | [] => e
  | e₂ :: rest =>
    if e₂.2.lastAccess < e.2.lastAccess then oldestEntry e₂ rest
    else oldestEntry e rest

/-- `StateStore::_applySet`, with `_evictOldest` inlined in the new-key
branch.  Returns `(changed, evicted, store, notifications)`: `changed` is the
C++ return value, `evicted` records whether a capacity eviction ran, and the
notifications are listed in delivery order (eviction first, then the write). -/
def StateStore.applySet (st : StateStore) (key value : String) (ttlMs now : Nat) :
    Bool × Bool × StateStore × List Notification :=
  match mapFind key st.entries with
  | some e =>
    if e.value = value ∧ e.ttlMs = ttlMs then
      (false, false,
       { st with entries := mapInsert key { e with lastAccess := now } st.entries },
       [])
    else
      let e₂ := { e with
        value := value
        lastAccess := now
        ttlMs := ttlMs
        createdAt := if 0 < ttlMs then now else e.createdAt
        dirty := true }
      (true, false, { st with entries := mapInsert key e₂ st.entries },
       [⟨key, e.value, value⟩])
  | none =>
    let (evicted, st₁, evNs) :=
      if 0 < st.maxEntries ∧ st.maxEntries ≤ st.entries.length then
        match st.entries with
        | [] => (false, st, ([] : List Notification))
        | e :: rest =>
          let old := oldestEntry e rest
          (true, { st with entries := mapErase old.1 st.entries },
           [⟨old.1, old.2.value, ""⟩])
      else (false, st, [])
    let entry : StateEntry :=
      { value := value, lastAccess := now, createdAt := now, ttlMs := ttlMs, dirty := true }
    (true, evicted, { st₁ with entries := mapInsert key entry st₁.entries },
     evNs ++ [⟨key, "", value⟩])

/-- `StateStore::set`: inside a transaction the write is buffered and the
call reports `true`; outside, the write is applied directly. -/
def StateStore.set (st : StateStore) (key value : String) (ttlMs now : Nat) :
    Bool × StateStore × List Notification :=
  if key = "" then (false, st, [])
  else if st.inTransaction then
    (true, { st with txBuffer := mapInsert key ⟨value, ttlMs⟩ st.txBuffer }, [])
  else
    let (changed, _, st₂, ns) := st.applySet key value ttlMs now
    (changed, st₂, ns)

/-- Result of `StateStore::commit`, instrumented with the eviction count. -/
structure CommitResult where
  store : StateStore
  applied : Nat
  evictions : Nat
  notifs : List Notification

/-- The `commit` loop: apply each buffered write in key order. -/
def StateStore.commitLoop (st : StateStore) (buf : List (String × TxEntry))
    (now : Nat) : CommitResult :=
  match buf with
  | [] => ⟨st, 0, 0, []⟩
  | (k, tx) :: rest =>
    let (changed, evicted, st₂, ns) := st.applySet k tx.value tx.ttlMs now
    let r := StateStore.commitLoop st₂ rest now
    ⟨r.store, (if changed then 1 else 0) + r.applied,
     (if evicted then 1 else 0) + r.evictions, ns ++ r.notifs⟩

/-- `StateStore::commit`: outside a transaction it is a no-op returning 0;
otherwise buffered writes are applied via `_applySet` and the buffer is
cleared.  `applied` is the C++ return value. -/
def StateStore.commit (st : StateStore) (now : Nat) : CommitResult :=
  if !st.inTransaction then ⟨st, 0, 0, []⟩
  else
    let r := StateStore.commitLoop { st with inTransaction := false } st.txBuffer now
    ⟨{ r.store with txBuffer := [] }, r.applied, r.evictions, r.notifs⟩

/-- `StateStore::begin`. -/
def StateStore.beginTx (st : StateStore) : StateStore :=
  { st with inTransaction := true, txBuffer := [] }

/-- `StateStore::rollback`: discard the buffer; no listener runs. -/
def StateStore.rollback (st : StateStore) : StateStore × List Notification :=
  ({ st with inTransaction := false, txBuffer := [] }, [])

-- ═══════════════════════════════════════════════════════════════════════
-- Rate limiters (src/MCPRateLimit.h)
-- ═══════════════════════════════════════════════════════════════════════

/-- `class RateLimiter` (global token bucket).  `float` state is `Rat`. -/
structure RateLimiter where
  enabled : Bool := false
  rps : Rat := 0
  capacity : Nat := 0
  tokens : Rat := 0
  lastRefill : Nat := 0
  totalAllowed : Nat := 0
  totalDenied : Nat := 0
deriving Repr

/-- `RateLimiter::configure`: start with a full bucket and zeroed counters. -/
def RateLimiter.configure (rl : RateLimiter) (requestsPerSecond : Rat)
    (burstCapacity : Nat) (now : Nat) : RateLimiter :=
  { rl with
      rps := requestsPerSecond
      capacity := burstCapacity
      tokens := (burstCapacity : Rat)
      lastRefill := now
      enabled := true
      totalAllowed := 0
      totalDenied := 0 }

/-- `RateLimiter::_refill`: lazy refill of `elapsed / 1000 * rps` tokens,
capped at capacity. -/
def RateLimiter.refill (rl : RateLimiter) (now : Nat) : RateLimiter :=
  let elapsed := wrapSub32 now rl.lastRefill
  if elapsed = 0 then rl
  else
    let t := rl.tokens + (elapsed : Rat) / 1000 * rl.rps
    { rl with
        lastRefill := now
        tokens := if (rl.capacity : Rat) < t then (rl.capacity : Rat) else t }

/-- `RateLimiter::tryAcquire`: disabled limiters and non-positive costs
short-circuit to `true` without touching the counters; otherwise exactly one
of the two counters is incremented. -/
def RateLimiter.tryAcquire (rl : RateLimiter) (cost : Rat) (now : Nat) :
    Bool × RateLimiter :=
  if !rl.enabled then (true, rl)
  else if cost ≤ 0 then (true, rl)
  else
    let rl₁ := rl.refill now
    if cost ≤ rl₁.tokens then
      (true, { rl₁ with
          tokens := rl₁.tokens - cost
          totalAllowed := rl₁.totalAllowed + 1 })
    else
      (false, { rl₁ with totalDenied := rl₁.totalDenied + 1 })

/-- `RateLimiter::resetStats`. -/
def RateLimiter.resetStats (rl : RateLimiter) : RateLimiter :=
  { rl with totalAllowed := 0, totalDenied := 0 }

/-- Run a sequence of `tryAcquire` calls, each given as `(cost, now)`. -/
def RateLimiter.runCalls (rl : RateLimiter) (calls : List (Rat × Nat)) : RateLimiter :=
  calls.foldl (fun s c => (s.tryAcquire c.1 c.2).2) rl

/-- One per-key token bucket (`KeyedRateLimiter::Bucket`).  The stored key
is the `strncpy`-truncated copy (at most `KEY_MAX_LEN - 1 = 31` chars). -/
structure KeyedBucket where
  key : String
  tokens : Rat
  lastRefill : Nat
  lastAccess : Nat
  denied : Nat
deriving DecidableEq, Repr

instance : Inhabited KeyedBucket :=
  ⟨⟨"", 0, 0, 0, 0⟩⟩

/-- `class KeyedRateLimiter`.  `buckets` models the active prefix
`_buckets[0 .. _count)` of the fixed pool. -/
structure KeyedRateLimiter where
  rps : Rat
  capacity : Nat
  maxKeys : Nat
  buckets : List KeyedBucket := []
  totalAllowed : Nat := 0
  totalDenied : Nat := 0
  evictions : Nat := 0
  enabled : Bool := true
deriving DecidableEq, Repr

/-- `KeyedRateLimiter::KeyedRateLimiter`: `maxKeys` clamped to at least 1. -/
def KeyedRateLimiter.new (requestsPerSecond : Rat) (burstCapacity maxKeys : Nat) :
    KeyedRateLimiter :=
  { rps := requestsPerSecond
    capacity := burstCapacity
    maxKeys := if 0 < maxKeys then maxKeys else 1 }

/-- `strncpy(dst, src, 31)` into a 32-byte field: the first 31 characters. -/
def strTake31 (s : String) : String :=
  ⟨s.data.take 31⟩

/-- A freshly initialized bucket as built at the end of `_findOrCreate`. -/
def freshBucket (key : String) (capacity : Nat) (now : Nat) : KeyedBucket :=
  { key := strTake31 key
    tokens := (capacity : Rat)
    lastRefill := now
    lastAccess := now
    denied := 0 }

/-- The LRU scan of `_findOrCreate`: running index of the strictly smallest
`lastAccess` seen so far (`idx`/`oldest`), scanning from position `i`. -/
def lruScan : List KeyedBucket → Nat → Nat → Nat → Nat
  | [], idx, _, _ => idx
  | b :: rest, idx, oldest, i =>
    if b.lastAccess < oldest then lruScan rest i b.lastAccess (i + 1)
    else lruScan rest idx oldest (i + 1)

/-- Index of the least-recently-used bucket (first minimum wins). -/
def lruIndex : List KeyedBucket → Nat
  | [] => 0
  | b :: rest => lruScan rest 0 b.lastAccess 1

/-- The `strcmp` scan at the top of `_findOrCreate`: position of the first
bucket whose stored key equals the probe key. -/
def findBucketIdx (key : String) : List KeyedBucket → Option Nat
  | [] => none
  | b :: rest =>
    if b.key = key then some 0 else (findBucketIdx key rest).map (· + 1)

/-- `KeyedRateLimiter::_findOrCreate`: position of the matching bucket, or
of a freshly initialized one (appended while the pool has room, otherwise
replacing the LRU bucket and counting an eviction). -/
def KeyedRateLimiter.findOrCreate (krl : KeyedRateLimiter) (key : String)
    (now : Nat) : Nat × KeyedRateLimiter :=
  match findBucketIdx key krl.buckets with
  | some i => (i, krl)
  | none =>
    if krl.buckets.length < krl.maxKeys then
      (krl.buckets.length,
       { krl with buckets := krl.buckets ++ [freshBucket key krl.capacity now] })
    else
      let i := lruIndex krl.buckets
      (i, { krl with
              buckets := krl.buckets.set i (freshBucket key krl.capacity now)
              evictions := krl.evictions + 1 })

/-- `KeyedRateLimiter::_refillBucket`. -/
def refillBucket (b : KeyedBucket) (rps : Rat) (capacity : Nat) (now : Nat) :
    KeyedBucket :=
  let elapsed := wrapSub32 now b.lastRefill
  if elapsed = 0 then b
  else
    let t := b.tokens + (elapsed : Rat) / 1000 * rps
    { b with
        lastRefill := now
        tokens := if (capacity : Rat) < t then (capacity : Rat) else t }

/-- `KeyedRateLimiter::tryAcquire`: disabled limiters, empty keys and
non-positive costs short-circuit to `true`; otherwise the key's bucket (found
or created) is refilled and debited. -/
def KeyedRateLimiter.tryAcquire (krl : KeyedRateLimiter) (key : String)
    (cost : Rat) (now : Nat) : Bool × KeyedRateLimiter :=
  if !krl.enabled then (true, krl)
  else if key = "" then (true, krl)
  else if cost ≤ 0 then (true, krl)
  else
    let (i, krl₁) := krl.findOrCreate key now
    match krl₁.buckets.get? i with
    | none => (false, { krl₁ with totalDenied := krl₁.totalDenied + 1 })
    | some b =>
      let b₁ := refillBucket b krl₁.rps krl₁.capacity now
      if cost ≤ b₁.tokens then
        (true, { krl₁ with
            buckets := krl₁.buckets.set i
              { b₁ with tokens := b₁.tokens - cost, lastAccess := now }
            totalAllowed := krl₁.totalAllowed + 1 })
      else
        (false, { krl₁ with
            buckets := krl₁.buckets.set i { b₁ with denied := b₁.denied + 1 }
            totalDenied := krl₁.totalDenied + 1 })

-- ═══════════════════════════════════════════════════════════════════════
-- Circuit breaker (src/MCPCircuitBreaker.h)
-- ═══════════════════════════════════════════════════════════════════════

/-- `enum class CircuitState` (`opened` stands for OPEN, a Lean keyword). -/
inductive CircuitState
  | closed
  | opened
  | halfOpen
deriving DecidableEq, Repr

/-- `class CircuitBreaker`: configuration, live state and lifetime stats. -/
structure CircuitBreaker where
  key : String := ""
  failureThreshold : Nat := 5
  recoveryTimeoutMs : Nat := 30000
  halfOpenSuccessThreshold : Nat := 1
  state : CircuitState := .closed
  failureCount : Nat := 0
  successCount : Nat := 0
  lastFailureMs : Nat := 0
  lastStateChangeMs : Nat := 0
  totalFailures : Nat := 0
  totalSuccesses : Nat := 0
  totalRejected : Nat := 0
  tripCount : Nat := 0
deriving DecidableEq, Repr

/-- `CircuitBreaker::_transition` (the state-change callback is outside the
modelled state). -/
def CircuitBreaker.transition (cb : CircuitBreaker) (newState : CircuitState)
    (now : Nat) : CircuitBreaker :=
  { cb with state := newState, lastStateChangeMs := now }

/-- `CircuitBreaker::reset`: back to CLOSED with cleared counts. -/
def CircuitBreaker.reset (cb : CircuitBreaker) (now : Nat) : CircuitBreaker :=
  { cb with
      state := .closed
      failureCount := 0
      successCount := 0
      lastFailureMs := 0
      lastStateChangeMs := now }

/-- `CircuitBreaker::configure` (key truncated by `strncpy` to 31 chars,
then `reset()`). -/
def CircuitBreaker.configure (cb : CircuitBreaker) (key : String)
    (failureThreshold recoveryTimeoutMs halfOpenSuccessThreshold now : Nat) :
    CircuitBreaker :=
  ({ cb with
      key := strTake31 key
      failureThreshold := failureThreshold
      recoveryTimeoutMs := recoveryTimeoutMs
      halfOpenSuccessThreshold := halfOpenSuccessThreshold }).reset now

/-- `CircuitBreaker::allowRequest`: CLOSED and HALF_OPEN pass; OPEN passes
(moving to HALF_OPEN) only once the recovery timeout has elapsed, otherwise
the rejection is counted. -/
def CircuitBreaker.allowRequest (cb : CircuitBreaker) (now : Nat) :
    Bool × CircuitBreaker :=
  match cb.state with
  | .closed => (true, cb)
  | .opened =>
    if cb.recoveryTimeoutMs ≤ wrapSub32 now cb.lastFailureMs then
      (true, cb.transition .halfOpen now)
    else
      (false, { cb with totalRejected := cb.totalRejected + 1 })
  | .halfOpen => (true, cb)

/-- `CircuitBreaker::recordSuccess`. -/
def CircuitBreaker.recordSuccess (cb : CircuitBreaker) (now : Nat) : CircuitBreaker :=
  let cb₁ := { cb with totalSuccesses := cb.totalSuccesses + 1 }
  match cb₁.state with
  | .closed =>
    { cb₁ with failureCount := 0, successCount := cb₁.successCount + 1 }
  | .halfOpen =>
    let cb₂ := { cb₁ with successCount := cb₁.successCount + 1 }
    if cb₂.halfOpenSuccessThreshold ≤ cb₂.successCount then
      { cb₂.transition .closed now with failureCount := 0, successCount := 0 }
    else cb₂
  | .opened => cb₁

/-- `CircuitBreaker::recordFailure`. -/
def CircuitBreaker.recordFailure (cb : CircuitBreaker) (now : Nat) : CircuitBreaker :=
  let cb₁ := { cb with
      totalFailures := cb.totalFailures + 1
      lastFailureMs := now
      failureCount := cb.failureCount + 1
      successCount := 0 }
  match cb₁.state with
  | .closed =>
    if cb₁.failureThreshold ≤ cb₁.failureCount then
      { cb₁.transition .opened now with tripCount := cb₁.tripCount + 1 }
    else cb₁
  | .halfOpen =>
    { cb₁.transition .opened now with tripCount := cb₁.tripCount + 1 }
  | .opened => cb₁

/-- `CircuitBreaker::trip`. -/
def CircuitBreaker.trip (cb : CircuitBreaker) (now : Nat) : CircuitBreaker :=
  { ({ cb with lastFailureMs := now }).transition .opened now with
      tripCount := cb.tripCount + 1 }

/-- One circuit-breaker operation with its `millis()` reading. -/
inductive CBOp
  | allow (now : Nat)
  | success (now : Nat)
  | failure (now : Nat)
  | reset (now : Nat)
  | trip (now : Nat)
deriving DecidableEq, Repr

/-- Apply one operation (`allowRequest`'s boolean result is dropped). -/
def CircuitBreaker.applyOp (cb : CircuitBreaker) (op : CBOp) : CircuitBreaker :=
  match op with
  | .allow now => (cb.allowRequest now).2
  | .success now => cb.recordSuccess now
  | .failure now => cb.recordFailure now
  | .reset now => cb.reset now
  | .trip now => cb.trip now

/-- Run a sequence of operations. -/
def CircuitBreaker.runOps (cb : CircuitBreaker) (ops : List CBOp) : CircuitBreaker :=
  ops.foldl CircuitBreaker.applyOp cb

-- ═══════════════════════════════════════════════════════════════════════
-- Retry executor (src/MCPRetry.h)
-- ═══════════════════════════════════════════════════════════════════════

/-- `enum class JitterMode`. -/
inductive JitterMode
  | none
  | full
  | equal
  | decorrelated
deriving DecidableEq, Repr

/-- `class RetryResult` (the fixed-size char buffers are plain strings). -/
structure RetryResultM where
  succeeded : Bool
  canRetry : Bool
  error : String
  value : String
deriving DecidableEq, Repr

/-- `RetryResult::success`. -/
def RetryResultM.successR (val : String) : RetryResultM :=
  ⟨true, false, "", val⟩

/-- `RetryResult::retryable`. -/
def RetryResultM.retryableR (err : String) : RetryResultM :=
  ⟨false, true, err, ""⟩

/-- `RetryResult::fatal`. -/
def RetryResultM.fatalR (err : String) : RetryResultM :=
  ⟨false, false, err, ""⟩

/-- `struct RetryPolicy` (`multiplier` is a `float`, modelled as `Rat`). -/
structure RetryPolicyM where
  maxRetries : Nat := 3
  baseDelayMs : Nat := 100
  multiplier : Rat := 2
  maxDelayMs : Nat := 10000
  totalTimeoutMs : Nat := 0
  jitter : JitterMode := .none
deriving Repr

/-- The exponential-backoff loop of `delayForAttempt`: multiply `attempt`
times, breaking out as soon as the cap is exceeded (the C cast
`(unsigned long)(d * multiplier)` floors). -/
def backoffLoop (pol : RetryPolicyM) (d : Nat) : Nat → Nat
  | 0 => if pol.maxDelayMs < d then pol.maxDelayMs else d
  | n + 1 =>
    let d₂ := (⌊(d : Rat) * pol.multiplier⌋).toNat
    if pol.maxDelayMs < d₂ then pol.maxDelayMs else backoffLoop pol d₂ n

/-- `RetryPolicy::delayForAttempt`.  `rnd lo hi` stands for the Arduino
`random(lo, hi)` draw made by this call, supplied as an oracle. -/
def delayForAttempt (pol : RetryPolicyM) (attempt lastDelayMs : Nat)
    (rnd : Nat → Nat → Nat) : Nat :=
  let d := backoffLoop pol pol.baseDelayMs attempt
  match pol.jitter with
  | .none => d
  | .full => if 0 < d then rnd 0 d else 0
  | .equal =>
    let half := d / 2
    half + (if 0 < half then rnd 0 half else 0)
  | .decorrelated =>
    let prev := if 0 < lastDelayMs then lastDelayMs else pol.baseDelayMs
    let upper := if pol.maxDelayMs < prev * 3 then pol.maxDelayMs else prev * 3
    let lower := if upper < pol.baseDelayMs then upper else pol.baseDelayMs
    lower + (if lower < upper then rnd 0 (upper - lower) else 0)

/-- `struct RetryStats` (per-run deltas; `reset()` is the default value). -/
structure RetryStatsM where
  totalAttempts : Nat := 0
  totalSuccesses : Nat := 0
  totalRetries : Nat := 0
  totalFailures : Nat := 0
  totalFatalErrors : Nat := 0
  totalTimeouts : Nat := 0
  totalDelayMs : Nat := 0
deriving DecidableEq, Repr

/-- The attempt loop of `RetryExecutor::execute`.  `op a` is the operation's
result on attempt `a`; `clock k` is the value of the `k`-th `millis()` call
after the initial `startMs` reading; `randf a` is the jitter oracle for
attempt `a`.  `fuel` counts the loop iterations still permitted
(`maxRetries + 1 - attempt`); the `fuel = 0` case is the unreachable
post-loop safety return. -/
def executeGo (pol : RetryPolicyM) (op : Nat → RetryResultM) (clock : Nat → Nat)
    (randf : Nat → Nat → Nat → Nat) (startMs : Nat) :
    Nat → Nat → Nat → Nat → RetryStatsM → RetryResultM × RetryStatsM
  | 0, _, _, _, stats =>
    (RetryResultM.fatalR "max retries exceeded",
     { stats with totalFailures := stats.totalFailures + 1 })
  | fuel + 1, attempt, lastDelay, k, stats =>
    let stats₁ := { stats with totalAttempts := stats.totalAttempts + 1 }
    let doCheck := 0 < pol.totalTimeoutMs ∧ 0 < attempt
    if doCheck ∧ pol.totalTimeoutMs ≤ wrapSub32 (clock k) startMs then
      (RetryResultM.fatalR "total timeout exceeded",
       { stats₁ with totalTimeouts := stats₁.totalTimeouts + 1 })
    else
      let k₁ := if doCheck then k + 1 else k
      let result := op attempt
      if result.succeeded then
        (result, { stats₁ with totalSuccesses := stats₁.totalSuccesses + 1 })
      else if !result.canRetry then
        (result, { stats₁ with totalFatalErrors := stats₁.totalFatalErrors + 1 })
      else if pol.maxRetries ≤ attempt then
        (result, { stats₁ with totalFailures := stats₁.totalFailures + 1 })
      else
        let d₀ := delayForAttempt pol attempt lastDelay (randf attempt)
        let d :=
          if 0 < pol.totalTimeoutMs then
            let elapsed := wrapSub32 (clock k₁) startMs
            let remaining :=
              if elapsed < pol.totalTimeoutMs then pol.totalTimeoutMs - elapsed else 0
            if remaining < d₀ then remaining else d₀
          else d₀
        let k₂ := if 0 < pol.totalTimeoutMs then k₁ + 1 else k₁
        let stats₂ := { stats₁ with
            totalRetries := stats₁.totalRetries + 1
            totalDelayMs := stats₁.totalDelayMs + d }
        executeGo pol op clock randf startMs fuel (attempt + 1) d k₂ stats₂

/-- `RetryExecutor::execute` starting from freshly reset stats. -/
def execute (pol : RetryPolicyM) (op : Nat → RetryResultM) (clock : Nat → Nat)
    (randf : Nat → Nat → Nat → Nat) : RetryResultM × RetryStatsM :=
  executeGo pol op clock randf (clock 0) (pol.maxRetries + 1) 0 0 1 {}

-- ═══════════════════════════════════════════════════════════════════════
-- Access control (src/MCPAccessControl.h)
-- ═══════════════════════════════════════════════════════════════════════

/-- `class AccessControl`: role set, key→role map and tool→allow-set map
(modelled as lists; `std::set`/`std::map` order is irrelevant here). -/
structure AccessControl where
  enabled : Bool := false
  defaultRole : String := "guest"
  roles : List String := []
  keyToRole : List (String × String) := []
  toolRoles : List (String × List String) := []
deriving Repr

/-- `AccessControl::removeRole`: drop the role, every key mapping to it and
its occurrence in every tool allow-set. -/
def AccessControl.removeRole (ac : AccessControl) (role : String) : AccessControl :=
  { ac with
      roles := ac.roles.filter (fun r => r != role)
      keyToRole := ac.keyToRole.filter (fun p => p.2 != role)
      toolRoles := ac.toolRoles.map (fun p => (p.1, p.2.filter (fun r => r != role))) }

-- ═══════════════════════════════════════════════════════════════════════
-- Watchdog (src/MCPWatchdog.h)
-- ═══════════════════════════════════════════════════════════════════════

/-- `enum class WatchdogState`. -/
inductive WatchdogState
  | healthy
  | expired
  | paused
deriving DecidableEq, Repr

/-- One watchdog entry (`struct Entry`; the callback pointer is outside the
modelled state). -/
structure WatchdogEntry where
  name : String
  timeoutMs : Nat
  lastKickMs : Nat
  started : Bool
  state : WatchdogState
  timeoutCount : Nat
deriving DecidableEq, Repr

/-- `class Watchdog`: the active prefix `entries_[0 .. count_)`. -/
structure Watchdog where
  maxEntries : Nat := 16
  entries : List WatchdogEntry := []
deriving Repr

/-- `Watchdog::find` as an entry lookup (first `strcmp` match). -/
def findEntry (name : String) : List WatchdogEntry → Option WatchdogEntry
  | [] => none
  | e :: rest => if e.name = name then some e else findEntry name rest

/-- `Watchdog::add`: reject zero timeouts, duplicates and a full table;
otherwise append a fresh entry (name `strncpy`-truncated to 31 chars). -/
def Watchdog.add (wd : Watchdog) (name : String) (timeoutMs : Nat) :
    Bool × Watchdog :=
  if timeoutMs = 0 then (false, wd)
  else if (findEntry name wd.entries).isSome then (false, wd)
  else if wd.maxEntries ≤ wd.entries.length then (false, wd)
  else
    (true, { wd with entries := wd.entries ++
        [{ name := strTake31 name, timeoutMs := timeoutMs, lastKickMs := 0
           started := false, state := .healthy, timeoutCount := 0 }] })

/-- The body of `Watchdog::kick` over the entry array: update the first
entry matching `name` unless it is paused. -/
def kickGo (name : String) (nowMs : Nat) :
    List WatchdogEntry → Bool × List WatchdogEntry
  | [] => (false, [])
  | e :: rest =>
    if e.name = name then
      if e.state = .paused then (false, e :: rest)
      else
        (true, { e with lastKickMs := nowMs, started := true, state := .healthy } :: rest)
    else
      let r := kickGo name nowMs rest
      (r.1, e :: r.2)

/-- `Watchdog::kick`. -/
def Watchdog.kick (wd : Watchdog) (name : String) (nowMs : Nat) : Bool × Watchdog :=
  let r := kickGo name nowMs wd.entries
  (r.1, { wd with entries := r.2 })

/-- The body of `Watchdog::pause`: mark the first matching entry paused. -/
def pauseGo (name : String) : List WatchdogEntry → Bool × List WatchdogEntry
  | [] => (false, [])
  | e :: rest =>
    if e.name = name then (true, { e with state := .paused } :: rest)
    else
      let r := pauseGo name rest
      (r.1, e :: r.2)

/-- `Watchdog::pause`. -/
def Watchdog.pause (wd : Watchdog) (name : String) : Bool × Watchdog :=
  let r := pauseGo name wd.entries
  (r.1, { wd with entries := r.2 })

/-- The per-entry step of `Watchdog::check`: a started, non-paused entry
past its deadline becomes expired (once) and counts a firing. -/
def checkEntry (e : WatchdogEntry) (nowMs : Nat) : WatchdogEntry × Nat :=
  if e.state = .paused then (e, 0)
  else if !e.started then (e, 0)
  else if e.timeoutMs ≤ wrapSub32 nowMs e.lastKickMs then
    if e.state ≠ .expired then
      ({ e with state := .expired, timeoutCount := e.timeoutCount + 1 }, 1)
    else (e, 0)
  else (e, 0)

/-- `Watchdog::check`: scan all entries, returning the number fired. -/
def Watchdog.check (wd : Watchdog) (nowMs : Nat) : Watchdog × Nat :=
  let stepped := wd.entries.map (fun e => checkEntry e nowMs)
  ({ wd with entries := stepped.map Prod.fst },
   (stepped.map Prod.snd).sum)

-- ═══════════════════════════════════════════════════════════════════════
-- Theorems
-- ═══════════════════════════════════════════════════════════════════════

/-- C7: for every `AccessControl` instance and role `R`, after
`removeRole(R)` no API key maps to `R` and no tool's allowed-role set
contains `R`. -/
theorem accessControl_removeRole_consistent (ac : AccessControl) (role : String) :
    (((ac.removeRole role).keyToRole.all (fun p => p.2 != role))
      && ((ac.removeRole role).toolRoles.all (fun p => p.2.all (fun r => r != role))))
      = true := by
  simp only [AccessControl.removeRole, Bool.and_eq_true, List.all_eq_true]
  refine ⟨fun p hp => ?_, fun p hp => ?_⟩
  · exact (List.mem_filter.mp hp).2
  · obtain ⟨q, _, rfl⟩ := List.mem_map.mp hp
    intro r hr
    exact (List.mem_filter.mp hr).2

/-- The list-level behaviour of `Watchdog::kick`: the first entry matching
`name`, when not paused, is marked kicked, and the call reports success. -/
theorem kickGo_found (name : String) (nowMs : Nat) :
    ∀ (l : List WatchdogEntry) (e : WatchdogEntry),
      findEntry name l = some e → e.state ≠ .paused →
      (kickGo name nowMs l).1 = true ∧
      findEntry name (kickGo name nowMs l).2
        = some { e with lastKickMs := nowMs, started := true, state := .healthy }
  | [], e, hfind, _ => by simp [findEntry] at hfind
  | e₀ :: rest, e, hfind, hstate => by
    by_cases h : e₀.name = name
    · have he : e₀ = e := by
        simpa [findEntry, h] using hfind
      subst he
      simp only [kickGo, if_pos h]
      rw [if_neg (by simpa using hstate)]
      simp [findEntry, h]
    · have hfind₂ : findEntry name rest = some e := by
        simpa [findEntry, h] using hfind
      have ih := kickGo_found name nowMs rest e hfind₂ hstate
      simp only [kickGo, if_neg h]
      exact ⟨ih.1, by simpa [findEntry, h] using ih.2⟩

/-- C8 (amended): `kick(name, now)` on a registered entry that is healthy or
expired succeeds and sets `lastKick = now`, `started = true`,
`state = healthy`; paused entries are excluded (`kick` refuses them, see the
counterexample). -/
theorem watchdog_kick_not_paused (wd : Watchdog) (name : String) (nowMs : Nat)
    (e : WatchdogEntry) (hfind : findEntry name wd.entries = some e)
    (hstate : e.state ≠ .paused) :
    (wd.kick name nowMs).1 = true ∧
    findEntry name (wd.kick name nowMs).2.entries
      = some { e with lastKickMs := nowMs, started := true, state := .healthy } :=
  kickGo_found name nowMs wd.entries e hfind hstate

/-- C8 witness at a concrete healthy entry. -/
theorem watchdog_kick_not_paused_witness :
    ((Watchdog.add {} "a" 100).2.kick "a" 5).1 = true ∧
    findEntry "a" ((Watchdog.add {} "a" 100).2.kick "a" 5).2.entries
      = some { name := "a", timeoutMs := 100, lastKickMs := 5, started := true
               state := .healthy, timeoutCount := 0 } := by
  have h := watchdog_kick_not_paused (Watchdog.add {} "a" 100).2 "a" 5
    { name := "a", timeoutMs := 100, lastKickMs := 0, started := false
      state := .healthy, timeoutCount := 0 } (by decide) (by decide)
  exact ⟨h.1, h.2⟩

/-- C8 counterexample: on a paused entry, `kick` fails and changes nothing,
refuting the claim that it succeeds for every current state. -/
theorem watchdog_kick_paused_cex :
    ((((Watchdog.add {} "a" 100).2.pause "a").2.kick "a" 5).1 = false) ∧
    ((((Watchdog.add {} "a" 100).2.pause "a").2.kick "a" 5).2.entries
      = (((Watchdog.add {} "a" 100).2.pause "a").2.entries)) := by
  decide

/-- C10: inside a transaction, `set` on a non-empty key returns `true` and
buffers the write without touching the entries or firing listeners — even
when the buffered value and TTL equal the current entry's, in which case the
subsequent `commit` applies no change and fires no notification — whereas the
same unchanged `set` outside a transaction returns `false`. -/
theorem stateStore_set_transaction_vs_direct (st : StateStore) (key value : String)
    (ttlMs now now₂ : Nat) (e : StateEntry)
    (hkey : key ≠ "") (htx : st.inTransaction = true) (hbuf : st.txBuffer = [])
    (hent : mapFind key st.entries = some e)
    (hval : e.value = value) (httl : e.ttlMs = ttlMs) :
    (st.set key value ttlMs now).1 = true ∧
    (st.set key value ttlMs now).2.1.entries = st.entries ∧
    (st.set key value ttlMs now).2.2 = [] ∧
    ((st.set key value ttlMs now).2.1.commit now₂).applied = 0 ∧
    ((st.set key value ttlMs now).2.1.commit now₂).notifs = [] ∧
    (({ st with inTransaction := false } : StateStore).set key value ttlMs now).1
      = false := by
  subst hval
  subst httl
  simp [StateStore.set, StateStore.commit, StateStore.commitLoop,
    StateStore.applySet, hkey, htx, hbuf, mapInsert, hent]

/-- C10 witness: a store holding `("x", "v")`, a fresh transaction, and the
unchanged write `set("x", "v", 0)`. -/
theorem stateStore_set_transaction_vs_direct_witness :
    let st := ((({} : StateStore).set "x" "v" 0 0).2.1).beginTx
    (st.set "x" "v" 0 1).1 = true ∧
    (st.set "x" "v" 0 1).2.1.entries = st.entries ∧
    (st.set "x" "v" 0 1).2.2 = [] ∧
    ((st.set "x" "v" 0 1).2.1.commit 2).applied = 0 ∧
    ((st.set "x" "v" 0 1).2.1.commit 2).notifs = [] ∧
    (({ ((({} : StateStore).set "x" "v" 0 0).2.1).beginTx with
        inTransaction := false } : StateStore).set "x" "v" 0 1).1 = false :=
  stateStore_set_transaction_vs_direct
    ((({} : StateStore).set "x" "v" 0 0).2.1).beginTx "x" "v" 0 1 2
    { value := "v", lastAccess := 0, createdAt := 0, ttlMs := 0, dirty := true }
    (by decide) (by decide) (by decide) (by decide) (by decide) (by decide)

/-- `RateLimiter::_refill` leaves the counters and the enabled flag alone. -/
theorem refill_preserves_counters (rl : RateLimiter) (now : Nat) :
    (rl.refill now).totalAllowed = rl.totalAllowed ∧
    (rl.refill now).totalDenied = rl.totalDenied ∧
    (rl.refill now).enabled = rl.enabled := by
  simp only [RateLimiter.refill]
  split <;> simp

/-- One enabled `tryAcquire` call moves `allowed + denied` up by one exactly
when the cost is positive, and keeps the limiter enabled. -/
theorem tryAcquire_counts_step (rl : RateLimiter) (cost : Rat) (now : Nat)
    (h : rl.enabled = true) :
    (rl.tryAcquire cost now).2.totalAllowed + (rl.tryAcquire cost now).2.totalDenied
      = rl.totalAllowed + rl.totalDenied + (if 0 < cost then 1 else 0) ∧
    (rl.tryAcquire cost now).2.enabled = true := by
  obtain ⟨ha, hd, he⟩ := refill_preserves_counters rl now
  simp only [RateLimiter.tryAcquire, h, Bool.not_true, Bool.false_eq_true,
    if_false]
  by_cases hc : cost ≤ 0
  · simp [hc, not_lt.mpr hc, h]
  · have hpos : 0 < cost := not_le.mp hc
    simp only [if_neg hc, if_pos hpos]
    by_cases ht : cost ≤ (rl.refill now).tokens
    · simp only [if_pos ht]
      constructor
      · simp [ha, hd]; omega
      · simpa [he] using h
    · simp only [if_neg ht]
      constructor
      · simp [ha, hd]; omega
      · simpa [he] using h

/-- Accumulated form of C4 over any call sequence from an enabled limiter. -/
theorem runCalls_counts (calls : List (Rat × Nat)) :
    ∀ rl : RateLimiter, rl.enabled = true →
      (rl.runCalls calls).totalAllowed + (rl.runCalls calls).totalDenied
        = rl.totalAllowed + rl.totalDenied
          + (calls.filter (fun c => decide (0 < c.1))).length := by
  induction calls with
  | nil => intro rl _; simp [RateLimiter.runCalls]
  | cons c rest ih =>
    intro rl h
    have step := tryAcquire_counts_step rl c.1 c.2 h
    have hrun : rl.runCalls (c :: rest) = ((rl.tryAcquire c.1 c.2).2).runCalls rest := rfl
    rw [hrun, ih _ step.2, step.1, List.filter_cons]
    by_cases hc : 0 < c.1
    · simp [hc]
      omega
    · simp [hc]

/-- C4 (amended): for a configured (enabled) rate limiter,
`totalAllowed + totalDenied` equals the number of `tryAcquire` calls made
with positive cost since `configure`; calls with `cost ≤ 0` short-circuit
to `true` without being counted. -/
theorem rateLimiter_allowed_denied_count (requestsPerSecond : Rat)
    (burstCapacity now₀ : Nat) (calls : List (Rat × Nat)) :
    ((RateLimiter.configure {} requestsPerSecond burstCapacity now₀).runCalls calls).totalAllowed
      + ((RateLimiter.configure {} requestsPerSecond burstCapacity now₀).runCalls calls).totalDenied
      = (calls.filter (fun c => decide (0 < c.1))).length := by
  have h := runCalls_counts calls
    (RateLimiter.configure {} requestsPerSecond burstCapacity now₀) rfl
  simpa [RateLimiter.configure] using h

/-- C4 counterexample: a single `tryAcquire(0)` call on a configured
limiter is allowed without touching either counter, so
`allowed + denied = 0` differs from the one call made. -/
theorem rateLimiter_call_count_cex :
    ((RateLimiter.configure {} 1 1 0).runCalls [((0 : Rat), 0)]).totalAllowed
      + ((RateLimiter.configure {} 1 1 0).runCalls [((0 : Rat), 0)]).totalDenied
      ≠ [((0 : Rat), 0)].length := by
  decide

/-- `mapInsert` preserves a predicate satisfied by the list and the new pair. -/
theorem all_mapInsert {α : Type} (p : String × α → Bool) (k : String) (v : α) :
    ∀ l : List (String × α), l.all p = true → p (k, v) = true →
      (mapInsert k v l).all p = true
  | [], _, hv => by simp [mapInsert, hv]
  | (k₂, v₂) :: rest, hl, hv => by
    simp only [List.all_cons, Bool.and_eq_true] at hl
    by_cases h₁ : strLt k k₂ = true
    · simp [mapInsert, h₁, hv, hl.1, hl.2]
    · by_cases h₂ : k = k₂
      · subst h₂
        simp [mapInsert, h₁, hv, hl.2]
      · simp only [mapInsert, if_neg h₁, if_neg h₂, List.all_cons, Bool.and_eq_true]
        exact ⟨hl.1, all_mapInsert p k v rest hl.2 hv⟩

/-- Removing the first terminal task preserves any per-task predicate. -/
theorem all_eraseFirstTerminal (p : String × MCPTask → Bool) :
    ∀ l : List (String × MCPTask), l.all p = true →
      (eraseFirstTerminal l).all p = true
  | [], _ => by simp [eraseFirstTerminal]
  | (k, t) :: rest, hl => by
    simp only [List.all_cons, Bool.and_eq_true] at hl
    by_cases h : isTerminalStatus t.status = true
    · simp [eraseFirstTerminal, h, hl.2]
    · simp only [eraseFirstTerminal]
      rw [if_neg h]
      simp only [List.all_cons, Bool.and_eq_true]
      exact ⟨hl.1, all_eraseFirstTerminal p rest hl.2⟩

/-- `_expireOldTasks` preserves the completed-implies-result invariant. -/
theorem taskInv_expire (m : TaskManager) (h : taskInv m = true) :
    taskInv m.expireOldTasks = true := by
  unfold TaskManager.expireOldTasks
  split
  · exact h
  · split
    · exact all_eraseFirstTerminal _ m.tasks h
    · exact h

/-- C1 (amended): the invariant "`completed` implies `hasResult`" is
preserved by `createTask`, `completeTask`, `failTask`, `cancelTask`, and by
`updateStatus` for every target status other than `completed`;
`updateStatus` with target `completed` is excluded (see the counterexample,
where it completes a task without attaching a result). -/
theorem taskManager_inv_preserved (m : TaskManager) (op : TaskOp) (now : Nat)
    (hInv : taskInv m = true)
    (hOp : ∀ id msg, op ≠ TaskOp.update id .completed msg) :
    taskInv (m.applyOp op now) = true := by
  have hexp := taskInv_expire m hInv
  cases op with
  | create toolName ttl =>
    unfold TaskManager.applyOp TaskManager.createTask TaskManager.generateId
    exact all_mapInsert _ _ _ m.tasks hInv rfl
  | update id s msg =>
    have hs : (s == TaskStatus.completed) = false := by
      cases s with
      | completed => exact absurd rfl (hOp id msg)
      | working => rfl
      | inputRequired => rfl
      | failed => rfl
      | cancelled => rfl
    unfold TaskManager.applyOp TaskManager.updateStatus TaskManager.getTask
    cases hfind : mapFind id m.expireOldTasks.tasks with
    | none => simpa [hfind] using hexp
    | some task =>
      by_cases hterm : isTerminalStatus task.status = true
      · simpa [hfind, hterm] using hexp
      · simp only [hfind, hterm, Bool.false_eq_true, if_false]
        exact all_mapInsert _ _ _ _ hexp (by simp [hs])
  | complete id res =>
    unfold TaskManager.applyOp TaskManager.completeTask TaskManager.getTask
    cases hfind : mapFind id m.expireOldTasks.tasks with
    | none => simpa [hfind] using hexp
    | some task =>
      by_cases hterm : isTerminalStatus task.status = true
      · simpa [hfind, hterm] using hexp
      · simp only [hfind, hterm, Bool.false_eq_true, if_false]
        exact all_mapInsert _ _ _ _ hexp (by simp)
  | fail id err =>
    unfold TaskManager.applyOp TaskManager.failTask TaskManager.getTask
    cases hfind : mapFind id m.expireOldTasks.tasks with
    | none => simpa [hfind] using hexp
    | some task =>
      by_cases hterm : isTerminalStatus task.status = true
      · simpa [hfind, hterm] using hexp
      · simp only [hfind, hterm, Bool.false_eq_true, if_false]
        exact all_mapInsert _ _ _ _ hexp (by simp)
  | cancel id =>
    unfold TaskManager.applyOp TaskManager.cancelTask TaskManager.getTask
    cases hfind : mapFind id m.expireOldTasks.tasks with
    | none => simpa [hfind] using hexp
    | some task =>
      by_cases hterm : isTerminalStatus task.status = true
      · simpa [hfind, hterm] using hexp
      · simp only [hfind, hterm, Bool.false_eq_true, if_false]
        exact all_mapInsert _ _ _ _ hexp (by simp)

/-- C1 witness: completing a freshly created task keeps the invariant. -/
theorem taskManager_inv_preserved_witness :
    taskInv (((({} : TaskManager).createTask "tool" (-1) 0).2.applyOp
      (TaskOp.complete "task-1" "res") 1)) = true :=
  taskManager_inv_preserved (({} : TaskManager).createTask "tool" (-1) 0).2
    (TaskOp.complete "task-1" "res") 1 (by decide)
    (fun id msg h => by cases h)

/-- C1 counterexample: `updateStatus` accepts target status `completed` and
sets it without attaching a result, so the freshly created task ends
completed with `hasResult = false`. -/
theorem taskManager_completed_hasResult_cex :
    ((({} : TaskManager).createTask "tool" (-1) 0).2.updateStatus
        "task-1" .completed "" 0).1 = true ∧
    taskInv ((({} : TaskManager).createTask "tool" (-1) 0).2.updateStatus
        "task-1" .completed "" 0).2 = false := by
  decide

/-- Each `_applySet` call notifies once per applied change plus once per
capacity eviction. -/
theorem applySet_notif_count (st : StateStore) (key value : String) (ttlMs now : Nat) :
    (st.applySet key value ttlMs now).2.2.2.length
      = (if (st.applySet key value ttlMs now).1 then 1 else 0)
        + (if (st.applySet key value ttlMs now).2.1 then 1 else 0) := by
  unfold StateStore.applySet
  cases hfind : mapFind key st.entries with
  | some e =>
    by_cases h : e.value = value ∧ e.ttlMs = ttlMs
    · simp [h]
    · simp [h]
  | none =>
    by_cases hcap : 0 < st.maxEntries ∧ st.maxEntries ≤ st.entries.length
    · obtain ⟨hpos, hle⟩ := hcap
      cases hent : st.entries with
      | nil =>
        rw [hent] at hle
        simp at hle
        omega
      | cons e rest =>
        have hle₂ : st.maxEntries ≤ rest.length + 1 := by
          rw [hent] at hle
          simpa using hle
        simp [hent, hpos, hle₂]
    · simp [hcap]

/-- The commit loop accumulates one notification per applied change plus
one per eviction. -/
theorem commitLoop_notif_count (now : Nat) :
    ∀ (buf : List (String × TxEntry)) (st : StateStore),
      (st.commitLoop buf now).notifs.length
        = (st.commitLoop buf now).applied + (st.commitLoop buf now).evictions
  | [], st => by simp [StateStore.commitLoop]
  | (k, tx) :: rest, st => by
    have hcall := applySet_notif_count st k tx.value tx.ttlMs now
    rcases hA : st.applySet k tx.value tx.ttlMs now with ⟨c, ev, st₂, ns⟩
    have ih := commitLoop_notif_count now rest st₂
    rw [hA] at hcall
    simp only [StateStore.commitLoop, hA]
    simp only at hcall
    cases c <;> cases ev <;> simp_all <;> omega

/-- C3 (amended): `commit` fires exactly one listener notification per
applied change (a buffered write whose value or TTL differs from the stored
entry when applied) plus one deletion notification per capacity eviction —
not one per buffered write — and `rollback` fires zero notifications and
leaves every entry unchanged. -/
theorem stateStore_commit_notifications (st : StateStore) (now : Nat) :
    ((st.commit now).notifs.length
      = (st.commit now).applied + (st.commit now).evictions) ∧
    st.rollback.2 = [] ∧
    st.rollback.1.entries = st.entries := by
  refine ⟨?_, rfl, rfl⟩
  unfold StateStore.commit
  cases hT : st.inTransaction
  · simp
  · simpa using commitLoop_notif_count now st.txBuffer { st with inTransaction := false }

/-- C3 counterexample: a transaction buffering exactly one write (whose
value and TTL match the stored entry) commits with zero notifications, not
one per buffered write. -/
theorem stateStore_commit_exactly_K_cex :
    (((({} : StateStore).set "x" "v" 0 0).2.1.beginTx.set "x" "v" 0 1).2.1.txBuffer.length
      = 1) ∧
    ((((({} : StateStore).set "x" "v" 0 0).2.1.beginTx.set "x" "v" 0 1).2.1.commit 2).notifs.length
      = 0) := by
  decide

/-- One circuit-breaker operation preserves the configured threshold and
the closed-implies-few-failures invariant (given a positive threshold). -/
theorem circuitBreaker_step_inv (cb : CircuitBreaker) (op : CBOp)
    (hthr : 1 ≤ cb.failureThreshold)
    (hinv : cb.state = .closed → cb.failureCount < cb.failureThreshold) :
    1 ≤ (cb.applyOp op).failureThreshold ∧
    ((cb.applyOp op).state = .closed →
      (cb.applyOp op).failureCount < (cb.applyOp op).failureThreshold) := by
  obtain ⟨key, thr, rto, host, st, fc, sc, lfm, lscm, tf, ts, tr, tc⟩ := cb
  simp only at hthr hinv
  cases op <;> cases st <;>
    simp_all [CircuitBreaker.applyOp, CircuitBreaker.allowRequest,
      CircuitBreaker.recordSuccess, CircuitBreaker.recordFailure,
      CircuitBreaker.reset, CircuitBreaker.trip, CircuitBreaker.transition] <;>
    (try split) <;> (try simp_all) <;> (try omega)

/-- The invariant holds along any operation sequence. -/
theorem circuitBreaker_runOps_inv (ops : List CBOp) :
    ∀ cb : CircuitBreaker, 1 ≤ cb.failureThreshold →
      (cb.state = .closed → cb.failureCount < cb.failureThreshold) →
      1 ≤ (cb.runOps ops).failureThreshold ∧
      ((cb.runOps ops).state = .closed →
        (cb.runOps ops).failureCount < (cb.runOps ops).failureThreshold) := by
  induction ops with
  | nil => exact fun cb h1 h2 => ⟨h1, h2⟩
  | cons op rest ih =>
    intro cb h1 h2
    have step := circuitBreaker_step_inv cb op h1 h2
    exact ih (cb.applyOp op) step.1 step.2

/-- C5 (amended): for every circuit breaker configured with failure
threshold at least 1, in every state reachable by any sequence of
allowRequest, recordSuccess, recordFailure, reset and trip operations, a
closed breaker has `failureCount < failureThreshold`.  (With threshold 0
the property already fails in the configured initial state, see the
counterexample.) -/
theorem circuitBreaker_closed_failures_lt (key : String)
    (thr timeout succThr now₀ : Nat) (ops : List CBOp)
    (hthr : 1 ≤ thr)
    (hclosed : ((CircuitBreaker.configure {} key thr timeout succThr now₀).runOps
        ops).state = .closed) :
    ((CircuitBreaker.configure {} key thr timeout succThr now₀).runOps ops).failureCount
      < ((CircuitBreaker.configure {} key thr timeout succThr now₀).runOps
          ops).failureThreshold := by
  have h := circuitBreaker_runOps_inv ops
    (CircuitBreaker.configure {} key thr timeout succThr now₀)
    (by simpa [CircuitBreaker.configure, CircuitBreaker.reset] using hthr)
    (fun _ => by simpa [CircuitBreaker.configure, CircuitBreaker.reset] using hthr)
  exact h.2 hclosed

/-- C5 witness: threshold 2, one recorded failure, breaker still closed. -/
theorem circuitBreaker_closed_failures_lt_witness :
    ((CircuitBreaker.configure {} "k" 2 1000 1 0).runOps [CBOp.failure 5]).failureCount
      < ((CircuitBreaker.configure {} "k" 2 1000 1 0).runOps
          [CBOp.failure 5]).failureThreshold :=
  circuitBreaker_closed_failures_lt "k" 2 1000 1 0 [CBOp.failure 5]
    (by decide) (by decide)

/-- C5 counterexample: a breaker configured with failure threshold 0 starts
closed with `failureCount = 0`, and `0 < 0` fails. -/
theorem circuitBreaker_threshold_zero_cex :
    ((CircuitBreaker.configure {} "k" 0 1000 1 0).runOps []).state = .closed ∧
    ¬(((CircuitBreaker.configure {} "k" 0 1000 1 0).runOps []).failureCount
      < ((CircuitBreaker.configure {} "k" 0 1000 1 0).runOps []).failureThreshold) := by
  decide

/-- A run of the attempt loop that ends in success made some `j < fuel`
retries, incrementing the attempt counter `j + 1` times. -/
theorem executeGo_success_delta (pol : RetryPolicyM) (op : Nat → RetryResultM)
    (clock : Nat → Nat) (randf : Nat → Nat → Nat → Nat) (startMs : Nat) :
    ∀ (fuel attempt lastDelay k : Nat) (stats : RetryStatsM),
      (executeGo pol op clock randf startMs fuel attempt lastDelay k stats).1.succeeded
        = true →
      ∃ j, j < fuel ∧
        (executeGo pol op clock randf startMs fuel attempt lastDelay k
            stats).2.totalAttempts = stats.totalAttempts + j + 1 ∧
        (executeGo pol op clock randf startMs fuel attempt lastDelay k
            stats).2.totalRetries = stats.totalRetries + j := by
  intro fuel
  induction fuel with
  | zero =>
    intro attempt lastDelay k stats h
    simp [executeGo, RetryResultM.fatalR] at h
  | succ n ih =>
    intro attempt lastDelay k stats h
    rw [executeGo] at h ⊢
    by_cases hto : ((0 < pol.totalTimeoutMs ∧ 0 < attempt)
        ∧ pol.totalTimeoutMs ≤ wrapSub32 (clock k) startMs)
    · rw [if_pos hto] at h
      simp [RetryResultM.fatalR] at h
    · rw [if_neg hto] at h ⊢
      by_cases hs : (op attempt).succeeded = true
      · rw [if_pos hs] at h ⊢
        exact ⟨0, by omega, by simp, by simp⟩
      · rw [if_neg hs] at h ⊢
        by_cases hr : (!(op attempt).canRetry) = true
        · rw [if_pos hr] at h
          exact absurd h hs
        · rw [if_neg hr] at h ⊢
          by_cases hm : pol.maxRetries ≤ attempt
          · rw [if_pos hm] at h
            exact absurd h hs
          · rw [if_neg hm] at h ⊢
            obtain ⟨j, hj, hA, hR⟩ := ih _ _ _ _ h
            refine ⟨j + 1, by omega, ?_, ?_⟩
            · rw [hA]
              simp
              try omega
            · rw [hR]
              simp
              try omega

/-- C6: for every `RetryExecutor::execute` run whose operation eventually
returns success, the recorded per-run statistics satisfy
`attempts = retries + 1` and `retries ≤ maxRetries`. -/
theorem retry_success_attempts (pol : RetryPolicyM) (op : Nat → RetryResultM)
    (clock : Nat → Nat) (randf : Nat → Nat → Nat → Nat)
    (h : (execute pol op clock randf).1.succeeded = true) :
    (execute pol op clock randf).2.totalAttempts
      = (execute pol op clock randf).2.totalRetries + 1 ∧
    (execute pol op clock randf).2.totalRetries ≤ pol.maxRetries := by
  have hd := executeGo_success_delta pol op clock randf (clock 0)
    (pol.maxRetries + 1) 0 0 1 {} (by simpa [execute] using h)
  obtain ⟨j, hj, hA, hR⟩ := hd
  rw [execute] at *
  constructor
  · rw [hA, hR]
  · rw [hR]
    simp
    omega

/-- C6 witness: an operation that is retryable twice and then succeeds,
under the default policy. -/
theorem retry_success_attempts_witness :
    ((execute {} (fun a => if a < 2 then .retryableR "nak" else .successR "ok")
        (fun k => k) (fun _ _ _ => 0)).2.totalAttempts
      = (execute {} (fun a => if a < 2 then .retryableR "nak" else .successR "ok")
          (fun k => k) (fun _ _ _ => 0)).2.totalRetries + 1) ∧
    ((execute {} (fun a => if a < 2 then .retryableR "nak" else .successR "ok")
        (fun k => k) (fun _ _ _ => 0)).2.totalRetries
      ≤ ({} : RetryPolicyM).maxRetries) :=
  retry_success_attempts {} (fun a => if a < 2 then .retryableR "nak" else .successR "ok")
    (fun k => k) (fun _ _ _ => 0) (by decide)

/-- The 32-bit wraparound difference of a timestamp with itself is zero. -/
theorem wrapSub32_self (n : Nat) : wrapSub32 n n = 0 := by
  unfold wrapSub32
  rw [Nat.add_sub_cancel' (le_of_lt (Nat.mod_lt _ (by norm_num))), Nat.mod_self]

/-- Looking up with a probe key longer than every stored (truncated) key
never matches. -/
theorem findBucketIdx_long_key (key : String) :
    ∀ l : List KeyedBucket, (∀ b ∈ l, b.key.length ≤ 31) → 31 < key.length →
      findBucketIdx key l = none
  | [], _, _ => rfl
  | b :: rest, hall, hlen => by
    have hb : b.key ≠ key := by
      intro hcon
      have hle := hall b (by simp)
      rw [hcon] at hle
      omega
    simp only [findBucketIdx, if_neg hb]
    rw [findBucketIdx_long_key key rest (fun x hx => hall x (by simp [hx])) hlen]
    rfl

/-- The `strncpy` truncation stores at most 31 characters. -/
theorem strTake31_length (s : String) : (strTake31 s).length ≤ 31 := by
  simp only [strTake31, String.length, List.length_take]
  omega

/-- Refilling a bucket at the `millis()` reading of its last refill is a
no-op. -/
theorem refillBucket_same_now (b : KeyedBucket) (rps : Rat) (cap now : Nat)
    (h : b.lastRefill = now) : refillBucket b rps cap now = b := by
  simp [refillBucket, h, wrapSub32_self]

/-- `get?` at the position of a freshly appended element. -/
theorem get?_concat_len {α : Type} : ∀ (l : List α) (a : α),
    (l ++ [a]).get? l.length = some a
  | [], _ => rfl
  | _ :: rest, a => get?_concat_len rest a

/-- Setting the freshly appended position rewrites just that element. -/
theorem set_concat_len {α : Type} (b : α) : ∀ (l : List α) (a : α),
    (l ++ [a]).set l.length b = l ++ [b]
  | [], _ => rfl
  | x :: rest, a => by
    show x :: (rest ++ [a]).set rest.length b = x :: (rest ++ [b])
    rw [set_concat_len b rest a]

/-- `get?` after `set` at the same in-range position. -/
theorem get?_set_self {α : Type} : ∀ (l : List α) (i : Nat) (a : α),
    i < l.length → (l.set i a).get? i = some a
  | [], i, _, h => by simp at h
  | _ :: _, 0, _, _ => rfl
  | _ :: rest, i + 1, a, h => by
    simp only [List.set, List.get?]
    exact get?_set_self rest i a (by simpa using h)

/-- `getElem?` form of `get?_set_self`. -/
theorem getElem?_set_self {α : Type} (l : List α) (i : Nat) (a : α)
    (h : i < l.length) : (l.set i a)[i]? = some a := by
  rw [← List.get?_eq_getElem?]
  exact get?_set_self l i a h

/-- Setting the same position twice keeps only the second write. -/
theorem set_set_same {α : Type} : ∀ (l : List α) (i : Nat) (a b : α),
    (l.set i a).set i b = l.set i b
  | [], _, _, _ => rfl
  | _ :: _, 0, _, _ => rfl
  | x :: rest, i + 1, a, b => by
    simp only [List.set]
    rw [set_set_same rest i a b]

/-- An in-range `getD` is a member of the list. -/
theorem getD_mem_of_lt {α : Type} (d : α) : ∀ (l : List α) (n : Nat),
    n < l.length → l.getD n d ∈ l
  | a :: _, 0, _ => by simp
  | _ :: rest, n + 1, h => by
    simp only [List.getD_cons_succ, List.mem_cons]
    exact Or.inr (getD_mem_of_lt d rest n (by simpa using h))

/-- Specification of the LRU scan: it returns the running candidate when
nothing later is strictly older, or the position (offset by the running
index) of an element at least as old as the candidate and minimal in the
scanned suffix. -/
theorem lruScan_spec :
    ∀ (l : List KeyedBucket) (idx oldest i : Nat),
      (lruScan l idx oldest i = idx ∧ ∀ b ∈ l, oldest ≤ b.lastAccess) ∨
      (∃ k, k < l.length ∧ lruScan l idx oldest i = i + k ∧
        (l.getD k default).lastAccess ≤ oldest ∧
        ∀ b ∈ l, (l.getD k default).lastAccess ≤ b.lastAccess)
  | [], idx, oldest, i => Or.inl ⟨rfl, by simp⟩
  | b :: rest, idx, oldest, i => by
    by_cases hb : b.lastAccess < oldest
    · rcases lruScan_spec rest i b.lastAccess (i + 1) with ⟨heq, hall⟩ | ⟨k, hk, heq, hle, hall⟩
      · refine Or.inr ⟨0, by simp, ?_, le_of_lt hb, ?_⟩
        · simpa [lruScan, hb] using heq
        · intro x hx
          simp only [List.getD_cons_zero]
          rcases List.mem_cons.mp hx with rfl | hx₂
          · exact le_refl _
          · exact hall x hx₂
      · refine Or.inr ⟨k + 1, by simpa using Nat.succ_lt_succ hk, ?_, ?_, ?_⟩
        · simp only [lruScan, if_pos hb, heq]
          omega
        · simp only [List.getD_cons_succ]
          exact le_trans hle (le_of_lt hb)
        · intro x hx
          simp only [List.getD_cons_succ]
          rcases List.mem_cons.mp hx with rfl | hx₂
          · exact hle
          · exact hall x hx₂
    · rcases lruScan_spec rest idx oldest (i + 1) with ⟨heq, hall⟩ | ⟨k, hk, heq, hle, hall⟩
      · refine Or.inl ⟨?_, ?_⟩
        · simpa [lruScan, hb] using heq
        · intro x hx
          rcases List.mem_cons.mp hx with rfl | hx₂
          · exact not_lt.mp hb
          · exact hall x hx₂
      · refine Or.inr ⟨k + 1, by simpa using Nat.succ_lt_succ hk, ?_, ?_, ?_⟩
        · simp only [lruScan, if_neg hb, heq]
          omega
        · simp only [List.getD_cons_succ]
          exact hle
        · intro x hx
          simp only [List.getD_cons_succ]
          rcases List.mem_cons.mp hx with rfl | hx₂
          · exact le_trans hle (not_lt.mp hb)
          · exact hall x hx₂

/-- The LRU index is in range and has minimal `lastAccess`. -/
theorem lruIndex_spec (b : KeyedBucket) (rest : List KeyedBucket) :
    lruIndex (b :: rest) < (b :: rest).length ∧
    ∀ j, j < (b :: rest).length →
      ((b :: rest).getD (lruIndex (b :: rest)) default).lastAccess
        ≤ ((b :: rest).getD j default).lastAccess := by
  rcases lruScan_spec rest 0 b.lastAccess 1 with ⟨heq, hall⟩ | ⟨k, hk, heq, hle, hall⟩
  · have hidx : lruIndex (b :: rest) = 0 := heq
    rw [hidx]
    refine ⟨by simp, ?_⟩
    intro j hj
    simp only [List.getD_cons_zero]
    cases j with
    | zero => simp
    | succ j₂ =>
      simp only [List.getD_cons_succ]
      exact hall _ (getD_mem_of_lt default rest j₂ (by simpa using hj))
  · have hidx : lruIndex (b :: rest) = k + 1 := by
      simp only [lruIndex, heq]
      omega
    rw [hidx]
    refine ⟨by simpa using Nat.succ_lt_succ hk, ?_⟩
    intro j hj
    simp only [List.getD_cons_succ]
    cases j with
    | zero => simpa using hle
    | succ j₂ =>
      simp only [List.getD_cons_succ]
      exact hall _ (getD_mem_of_lt default rest j₂ (by simpa using hj))

/-- C9 (amended): for an enabled keyed limiter (with its pool of at most 31
character truncated keys) and a probe key of 32 or more characters, every
`tryAcquire` with positive cost misses all stored buckets and allocates a
freshly initialized full bucket, so the call is allowed whenever
`cost ≤ burstCapacity`; while the pool has room the bucket is appended, and
once it holds `maxKeys` buckets the least-recently-used bucket is evicted.
(Calls with `cost ≤ 0` or a disabled limiter short-circuit to `true`
without touching the pool, see the counterexample.) -/
theorem keyedRateLimiter_long_key_fresh (krl : KeyedRateLimiter) (key : String)
    (cost : Rat) (now : Nat)
    (hen : krl.enabled = true) (hmax : 1 ≤ krl.maxKeys) (hlen : 31 < key.length)
    (hstored : ∀ b ∈ krl.buckets, b.key.length ≤ 31)
    (hcost : 0 < cost) (hcap : cost ≤ (krl.capacity : Rat)) :
    (krl.tryAcquire key cost now).1 = true ∧
    (krl.buckets.length < krl.maxKeys →
      (krl.tryAcquire key cost now).2.buckets
        = krl.buckets ++
            [{ key := strTake31 key, tokens := (krl.capacity : Rat) - cost,
               lastRefill := now, lastAccess := now, denied := 0 }] ∧
      (krl.tryAcquire key cost now).2.evictions = krl.evictions) ∧
    (krl.maxKeys ≤ krl.buckets.length →
      ∃ i, i < krl.buckets.length ∧
        (∀ j, j < krl.buckets.length →
          (krl.buckets.getD i default).lastAccess
            ≤ (krl.buckets.getD j default).lastAccess) ∧
        (krl.tryAcquire key cost now).2.buckets
          = krl.buckets.set i
              { key := strTake31 key, tokens := (krl.capacity : Rat) - cost,
                lastRefill := now, lastAccess := now, denied := 0 } ∧
        (krl.tryAcquire key cost now).2.evictions = krl.evictions + 1) := by
  have hne : key ≠ "" := by
    intro hcon
    rw [hcon] at hlen
    simp [String.length] at hlen
  have hfind := findBucketIdx_long_key key krl.buckets hstored hlen
  have hnc : ¬(cost ≤ 0) := not_le.mpr hcost
  by_cases hroom : krl.buckets.length < krl.maxKeys
  · have htry : krl.tryAcquire key cost now
        = (true, { krl with
            buckets := krl.buckets ++
              [{ key := strTake31 key, tokens := (krl.capacity : Rat) - cost,
                 lastRefill := now, lastAccess := now, denied := 0 }],
            totalAllowed := krl.totalAllowed + 1 }) := by
      simp [KeyedRateLimiter.tryAcquire, KeyedRateLimiter.findOrCreate, hen,
        hne, hnc, hfind, hroom, get?_concat_len, refillBucket_same_now,
        freshBucket, set_concat_len, hcap]
    rw [htry]
    exact ⟨rfl, fun _ => ⟨rfl, rfl⟩, fun hfull => absurd hroom (not_lt.mpr hfull)⟩
  · have hfull : krl.maxKeys ≤ krl.buckets.length := not_lt.mp hroom
    have hlt : lruIndex krl.buckets < krl.buckets.length := by
      cases hbk : krl.buckets with
      | nil =>
        rw [hbk] at hfull
        simp at hfull
        omega
      | cons b rest => exact (lruIndex_spec b rest).1
    have hmin : ∀ j, j < krl.buckets.length →
        (krl.buckets.getD (lruIndex krl.buckets) default).lastAccess
          ≤ (krl.buckets.getD j default).lastAccess := by
      cases hbk : krl.buckets with
      | nil => intro j hj; simp [hbk] at hj
      | cons b rest => exact (lruIndex_spec b rest).2
    have hget : (krl.buckets.set (lruIndex krl.buckets)
        { key := strTake31 key, tokens := (krl.capacity : Rat),
          lastRefill := now, lastAccess := now,
          denied := 0 })[lruIndex krl.buckets]?
        = some { key := strTake31 key, tokens := (krl.capacity : Rat),
                 lastRefill := now, lastAccess := now, denied := 0 } :=
      getElem?_set_self _ _ _ hlt
    have htry : krl.tryAcquire key cost now
        = (true, { krl with
            buckets := krl.buckets.set (lruIndex krl.buckets)
              { key := strTake31 key, tokens := (krl.capacity : Rat) - cost,
                lastRefill := now, lastAccess := now, denied := 0 },
            evictions := krl.evictions + 1,
            totalAllowed := krl.totalAllowed + 1 }) := by
      simp [KeyedRateLimiter.tryAcquire, KeyedRateLimiter.findOrCreate, hen,
        hne, hnc, hfind, hroom, hget, refillBucket_same_now,
        freshBucket, set_set_same, hcap]
    rw [htry]
    exact ⟨rfl, fun hr => absurd hr hroom,
      fun _ => ⟨lruIndex krl.buckets, hlt, hmin, rfl, rfl⟩⟩

/-- C9 witness: a full one-bucket pool, probed again with the same 32-char
key and cost 1 — the call is allowed and evicts the LRU bucket. -/
theorem keyedRateLimiter_long_key_fresh_witness :
    (((KeyedRateLimiter.new 10 5 1).tryAcquire
        "abcdefghijklmnopqrstuvwxyz012345" 1 0).2.tryAcquire
        "abcdefghijklmnopqrstuvwxyz012345" 1 7).1 = true ∧
    (((KeyedRateLimiter.new 10 5 1).tryAcquire
        "abcdefghijklmnopqrstuvwxyz012345" 1 0).2.tryAcquire
        "abcdefghijklmnopqrstuvwxyz012345" 1 7).2.evictions
      = ((KeyedRateLimiter.new 10 5 1).tryAcquire
          "abcdefghijklmnopqrstuvwxyz012345" 1 0).2.evictions + 1 := by
  have h := keyedRateLimiter_long_key_fresh
    ((KeyedRateLimiter.new 10 5 1).tryAcquire "abcdefghijklmnopqrstuvwxyz012345" 1 0).2
    "abcdefghijklmnopqrstuvwxyz012345" 1 7
    (by decide) (by decide) (by decide) (by decide) (by decide) (by decide)
  obtain ⟨hi, _, hfull⟩ := h
  obtain ⟨i, _, _, _, hev⟩ := hfull (by decide)
  exact ⟨hi, hev⟩

/-- C9 counterexample to the claim as stated: with the pool already holding
`maxKeys` buckets, a `tryAcquire` with the same 32-character key but cost 0
short-circuits to `true` without allocating a fresh bucket or evicting the
LRU bucket — the limiter state is unchanged. -/
theorem keyedRateLimiter_long_key_cex :
    ((KeyedRateLimiter.new 10 5 1).tryAcquire
        "abcdefghijklmnopqrstuvwxyz012345" 1 0).2.buckets.length = 1 ∧
    ((KeyedRateLimiter.new 10 5 1).tryAcquire
        "abcdefghijklmnopqrstuvwxyz012345" 1 0).2.maxKeys = 1 ∧
    (((KeyedRateLimiter.new 10 5 1).tryAcquire
        "abcdefghijklmnopqrstuvwxyz012345" 1 0).2.tryAcquire
        "abcdefghijklmnopqrstuvwxyz012345" 0 7).1 = true ∧
    (((KeyedRateLimiter.new 10 5 1).tryAcquire
        "abcdefghijklmnopqrstuvwxyz012345" 1 0).2.tryAcquire
        "abcdefghijklmnopqrstuvwxyz012345" 0 7).2.evictions = 0 ∧
    (((KeyedRateLimiter.new 10 5 1).tryAcquire
        "abcdefghijklmnopqrstuvwxyz012345" 1 0).2.tryAcquire
        "abcdefghijklmnopqrstuvwxyz012345" 0 7).2.buckets.length = 1 := by
  decide

/-- `getD` after `set` at a different position is unchanged. -/
theorem getD_set_ne {α : Type} (d : α) : ∀ (l : List α) (i j : Nat) (a : α),
    i ≠ j → (l.set i a).getD j d = l.getD j d
  | [], _, _, _, _ => rfl
  | _ :: _, 0, 0, _, h => absurd rfl h
  | _ :: _, 0, _ + 1, _, _ => rfl
  | _ :: _, _ + 1, 0, _, _ => rfl
  | _ :: rest, i + 1, j + 1, a, h =>
    getD_set_ne d rest i j a (fun hc => h (by omega))

/-- `getD` after `set` at the same in-range position yields the new value. -/
theorem getD_set_at {α : Type} (d : α) : ∀ (l : List α) (i : Nat) (a : α),
    i < l.length → (l.set i a).getD i d = a
  | [], _, _, h => by simp at h
  | _ :: _, 0, _, _ => rfl
  | _ :: rest, i + 1, a, h => getD_set_at d rest i a (by simpa using h)

/-- `getD` into the left part of an append. -/
theorem getD_append_left {α : Type} (d : α) : ∀ (l l₂ : List α) (j : Nat),
    j < l.length → (l ++ l₂).getD j d = l.getD j d
  | [], _, _, h => by simp at h
  | _ :: _, _, 0, _ => rfl
  | _ :: rest, l₂, j + 1, h => getD_append_left d rest l₂ j (by simpa using h)

/-- `getD` at the position of a freshly appended element. -/
theorem getD_concat_len {α : Type} (d : α) : ∀ (l : List α) (a : α),
    (l ++ [a]).getD l.length d = a
  | [], _ => rfl
  | _ :: rest, a => getD_concat_len d rest a

/-- `getD` into a map over `List.range`. -/
theorem getD_map_range {α : Type} (d : α) (f : Nat → α) :
    ∀ (n j : Nat), j < n → ((List.range n).map f).getD j d = f j := by
  intro n
  induction n with
  | zero => omega
  | succ m ih =>
    intro j h
    rw [List.range_succ, List.map_append]
    by_cases hj : j < m
    · rw [getD_append_left d _ _ j (by simpa using hj)]
      exact ih j hj
    · have hje : j = m := by omega
      subst hje
      simp only [List.map_cons, List.map_nil]
      have hlen : ((List.range j).map f).length = j := by simp
      have hc := getD_concat_len d ((List.range j).map f) (f j)
      rw [hlen] at hc
      exact hc

/-- Reading `getD` at offsets `m + i` over `range (length - m)` recovers
`drop m`. -/
theorem map_getD_range_drop {α : Type} (d : α) :
    ∀ (l : List α) (m : Nat), m ≤ l.length →
      (List.range (l.length - m)).map (fun i => l.getD (m + i) d) = l.drop m
  | [], m, h => by simp
  | x :: rest, 0, _ => by
    simp only [List.length_cons, Nat.sub_zero, List.drop_zero]
    rw [List.range_succ_eq_map]
    simp only [List.map_cons, List.map_map, Nat.zero_add, List.getD_cons_zero]
    congr 1
    have hrec := map_getD_range_drop d rest 0 (Nat.zero_le _)
    simp only [Nat.sub_zero, List.drop_zero] at hrec
    have hmap : List.map ((fun i => (x :: rest).getD i d) ∘ Nat.succ)
        (List.range rest.length)
        = List.map (fun i => rest.getD (0 + i) d) (List.range rest.length) := by
      apply List.map_congr_left
      intro i _
      simp [List.getD_cons_succ, Nat.zero_add]
    exact hmap.trans hrec
  | x :: rest, m + 1, h => by
    simp only [List.length_cons, List.drop_succ_cons]
    have h₂ : m ≤ rest.length := by simpa using h
    have hrec := map_getD_range_drop d rest m h₂
    rw [← hrec]
    have harith : rest.length + 1 - (m + 1) = rest.length - m := by omega
    rw [harith]
    apply List.map_congr_left
    intro i _
    have hidx : m + 1 + i = (m + i) + 1 := by omega
    rw [hidx, List.getD_cons_succ]

/-- Adding a positive offset smaller than the modulus changes a residue. -/
theorem add_mod_ne (len s cap : Nat) (h0 : 0 < s) (hs : s < cap) :
    (len + s) % cap ≠ len % cap := by
  intro hc
  have hcap : 0 < cap := by omega
  rw [Nat.add_mod] at hc
  have hl : len % cap < cap := Nat.mod_lt _ hcap
  rw [Nat.mod_eq_of_lt hs] at hc
  by_cases hlt : len % cap + s < cap
  · rw [Nat.mod_eq_of_lt hlt] at hc
    omega
  · rw [Nat.mod_eq_sub_mod (by omega),
      Nat.mod_eq_of_lt (by omega : len % cap + s - cap < cap)] at hc
    omega

/-- Length of the reference event list. -/
theorem ghostEvents_length (xs : List EmitReq) :
    (ghostEvents xs).length = xs.length := by
  simp [ghostEvents]

/-- Pointwise description of the reference event list. -/
theorem ghostEvents_getD (xs : List EmitReq) (j : Nat) (h : j < xs.length) :
    (ghostEvents xs).getD j default
      = { seq := j % 2 ^ 32
          timestampMs := (xs.getD j default).now
          tag := (xs.getD j default).tag
          data := (xs.getD j default).data
          severity := (xs.getD j default).severity } := by
  unfold ghostEvents
  exact getD_map_range default _ xs.length j h

/-- Appending an emission leaves the earlier reference events unchanged. -/
theorem ghostEvents_append_getD (xs : List EmitReq) (r : EmitReq) (j : Nat)
    (h : j < xs.length) :
    (ghostEvents (xs ++ [r])).getD j default = (ghostEvents xs).getD j default := by
  rw [ghostEvents_getD (xs ++ [r]) j (by simp; omega), ghostEvents_getD xs j h,
    getD_append_left default xs [r] j h]

/-- The reference event appended by the latest emission. -/
theorem ghostEvents_append_last (xs : List EmitReq) (r : EmitReq) :
    (ghostEvents (xs ++ [r])).getD xs.length default
      = { seq := xs.length % 2 ^ 32, timestampMs := r.now, tag := r.tag,
          data := r.data, severity := r.severity } := by
  rw [ghostEvents_getD (xs ++ [r]) xs.length (by simp), getD_concat_len]

/-- The freshly constructed store satisfies the ring-buffer invariant. -/
theorem storeInv_new (cap : Nat) (hcap : 1 ≤ cap) :
    storeInv cap [] (EventStore.new cap) := by
  unfold storeInv EventStore.new
  have hc : ¬(cap < 1) := by omega
  refine ⟨by simp [hc], by simp, by simp, by simp, by simp [hc], ?_⟩
  intro i hi
  simp at hi

/-- One `emit` preserves the ring-buffer invariant. -/
theorem storeInv_emit (cap : Nat) (hcap : 1 ≤ cap) (xs : List EmitReq)
    (st : EventStore) (hinv : storeInv cap xs st) (r : EmitReq) :
    storeInv cap (xs ++ [r]) (st.emit r.tag r.data r.severity r.now).1 := by
  obtain ⟨hC, hS, hN, hH, hL, hE⟩ := hinv
  have hcap0 : 0 < cap := hcap
  unfold storeInv
  refine ⟨?_, ?_, ?_, ?_, ?_, ?_⟩
  · exact hC
  · show (st.seq + 1) % 2 ^ 32 = (xs ++ [r]).length % 2 ^ 32
    rw [hS, Nat.mod_add_mod]
    simp
  · show (if st.count < st.capacity then st.count + 1 else st.count)
        = min (xs ++ [r]).length cap
    rw [hN, hC]
    simp only [List.length_append, List.length_cons, List.length_nil]
    split <;> omega
  · show (st.head + 1) % st.capacity = (xs ++ [r]).length % cap
    rw [hH, hC, Nat.mod_add_mod]
    simp
  · show (st.events.set st.head
        ⟨st.seq, r.now, r.tag, r.data, r.severity⟩).length = cap
    rw [List.length_set]
    exact hL
  · intro i hi
    simp only [EventStore.emit, List.length_append, List.length_cons,
      List.length_nil] at hi ⊢
    by_cases hlencap : xs.length < cap
    · -- the buffer still has room: the new event lands in slot `xs.length`
      have hcount : st.count = xs.length := by
        rw [hN]
        omega
      have hcond : st.count < st.capacity := by
        rw [hcount, hC]
        exact hlencap
      rw [if_pos hcond] at hi ⊢
      have hi2 : i < cap := by omega
      have hstart : (if st.count + 1 < st.capacity then 0
          else (st.head + 1) % st.capacity) = 0 := by
        split
        · rfl
        · rename_i hge
          rw [hcount, hC] at hge
          have hcapeq : xs.length + 1 = cap := by omega
          rw [hH, hC, Nat.mod_add_mod, hcapeq, Nat.mod_self]
      rw [hstart]
      have hidx : (0 + i) % cap = i := by
        rw [Nat.zero_add]
        exact Nat.mod_eq_of_lt hi2
      rw [hidx]
      have hridx : xs.length + 1 - (st.count + 1) + i = i := by omega
      rw [hridx]
      by_cases hil : i < xs.length
      · have hne : st.head ≠ i := by
          rw [hH, Nat.mod_eq_of_lt hlencap]
          omega
        rw [getD_set_ne default st.events st.head i _ hne]
        have hold := hE i (by omega)
        rw [if_pos hcond, hidx] at hold
        have hgidx : xs.length - st.count + i = i := by omega
        rw [hgidx] at hold
        rw [hold]
        exact (ghostEvents_append_getD xs r i hil).symm
      · have hieq : i = xs.length := by omega
        subst hieq
        have hhl : st.head < st.events.length := by
          rw [hL, hH]
          exact Nat.mod_lt _ hcap0
        have hset := getD_set_at default st.events st.head
          ⟨st.seq, r.now, r.tag, r.data, r.severity⟩ hhl
        have hhead : st.head = xs.length := by
          rw [hH, Nat.mod_eq_of_lt hlencap]
        rw [hhead] at hset
        rw [hhead]
        rw [hset, ghostEvents_append_last, hS]
    · -- the buffer is full: the new event overwrites the oldest slot
      have hle : cap ≤ xs.length := by omega
      have hcount : st.count = cap := by
        rw [hN]
        omega
      have hcond : ¬(st.count < st.capacity) := by
        rw [hcount, hC]
        omega
      rw [if_neg hcond] at hi
      rw [if_neg hcond, if_neg hcond]
      have hicap : i < cap := by omega
      rw [hH, hC]
      have hindex : ((xs.length % cap + 1) % cap + i) % cap
          = (xs.length + 1 + i) % cap := by
        rw [Nat.mod_add_mod, Nat.add_assoc, Nat.mod_add_mod, ← Nat.add_assoc]
      rw [hindex]
      by_cases hlast : i = cap - 1
      · subst hlast
        have h1 : xs.length + 1 + (cap - 1) = xs.length + cap := by omega
        rw [h1, Nat.add_mod_right]
        have h2 : xs.length + 1 - st.count + (cap - 1) = xs.length := by omega
        rw [h2]
        have hhl : st.head < st.events.length := by
          rw [hL, hH]
          exact Nat.mod_lt _ hcap0
        rw [← hH]
        rw [getD_set_at default st.events st.head
          ⟨st.seq, r.now, r.tag, r.data, r.severity⟩ hhl]
        rw [ghostEvents_append_last, hS]
      · have hi1 : i + 1 < cap := by omega
        have hne : (xs.length + 1 + i) % cap ≠ xs.length % cap := by
          have h3 : xs.length + 1 + i = xs.length + (i + 1) := by omega
          rw [h3]
          exact add_mod_ne xs.length (i + 1) cap (by omega) hi1
        rw [getD_set_ne default st.events (xs.length % cap)
          ((xs.length + 1 + i) % cap) _ (Ne.symm hne)]
        have hold := hE (i + 1) (by omega)
        rw [if_neg hcond, hH] at hold
        have h4 : (xs.length % cap + (i + 1)) % cap
            = (xs.length + 1 + i) % cap := by
          rw [Nat.mod_add_mod]
          congr 1
          omega
        rw [h4] at hold
        rw [hold]
        have h6 : xs.length + 1 - st.count + i
            = xs.length - st.count + (i + 1) := by omega
        rw [h6]
        exact (ghostEvents_append_getD xs r _ (by omega)).symm

/-- `filter` by the constant-true predicate is the identity. -/
theorem filter_true_id {α : Type} : ∀ l : List α, l.filter (fun _ => true) = l
  | [] => rfl
  | x :: rest => by simp [List.filter_cons, filter_true_id rest]

/-- Every store built by a sequence of emissions satisfies the invariant. -/
theorem storeInv_emitList (cap : Nat) (hcap : 1 ≤ cap) (xs : List EmitReq) :
    storeInv cap xs (emitList (EventStore.new cap) xs) := by
  induction xs using List.reverseRecOn with
  | nil => exact storeInv_new cap hcap
  | append_singleton ys r ih =>
    have step := storeInv_emit cap hcap ys (emitList (EventStore.new cap) ys) ih r
    simpa [emitList, List.foldl_append] using step

/-- `all()` of a store built from `xs` emissions is the suffix of the
reference list that survives eviction. -/
theorem emitList_all (cap : Nat) (hcap : 1 ≤ cap) (xs : List EmitReq) :
    (emitList (EventStore.new cap) xs).all
      = (ghostEvents xs).drop (xs.length - cap) := by
  obtain ⟨hC, hS, hN, hH, hL, hE⟩ := storeInv_emitList cap hcap xs
  set st := emitList (EventStore.new cap) xs with hst
  unfold EventStore.all EventStore.collect
  by_cases hzero : st.count = 0
  · rw [if_pos hzero]
    have hlen : xs.length = 0 := by
      rw [hN] at hzero
      omega
    have hxs : xs = [] := List.length_eq_zero.mp hlen
    subst hxs
    simp [ghostEvents]
  · rw [if_neg hzero, filter_true_id]
    rw [hC] at hE ⊢
    have hcnt_le : st.count ≤ xs.length := by
      rw [hN]
      omega
    have hdrop := map_getD_range_drop default (ghostEvents xs)
      (xs.length - st.count) (by rw [ghostEvents_length]; omega)
    rw [ghostEvents_length] at hdrop
    have harith : xs.length - (xs.length - st.count) = st.count := by omega
    rw [harith] at hdrop
    have harith2 : xs.length - cap = xs.length - st.count := by
      rw [hN]
      omega
    rw [harith2, ← hdrop]
    apply List.map_congr_left
    intro i hiR
    exact hE i (List.mem_range.mp hiR)

/-- `_collect` with any predicate filters the oldest-first view `all()`. -/
theorem collect_eq_filter_all (st : EventStore) (pred : Event → Bool) :
    st.collect pred = st.all.filter pred := by
  unfold EventStore.all EventStore.collect
  by_cases hzero : st.count = 0
  · simp [hzero]
  · rw [if_neg hzero, if_neg hzero, filter_true_id]

/-- C2 (amended): for every capacity and emission sequence, `sinceSeq(x)`
returns exactly the stored entries whose sequence number is greater than
**or equal to** `x`, ordered oldest first — where the stored entries are the
suffix of the emission sequence that survives ring-buffer eviction.  (The
claimed strict inequality fails, see the counterexample.) -/
theorem eventStore_sinceSeq_ge (cap : Nat) (hcap : 1 ≤ cap)
    (xs : List EmitReq) (bound : Nat) :
    (emitList (EventStore.new cap) xs).sinceSeq bound
      = ((ghostEvents xs).drop (xs.length - cap)).filter
          (fun e => decide (bound ≤ e.seq)) := by
  unfold EventStore.sinceSeq
  rw [collect_eq_filter_all, emitList_all cap hcap xs]

/-- C2 witness: capacity 2, three emissions (one eviction), bound 1. -/
theorem eventStore_sinceSeq_ge_witness :
    (emitList (EventStore.new 2)
        [⟨"a", "0", .info, 0⟩, ⟨"b", "1", .info, 1⟩, ⟨"c", "2", .info, 2⟩]).sinceSeq 1
      = ((ghostEvents
            [⟨"a", "0", .info, 0⟩, ⟨"b", "1", .info, 1⟩, ⟨"c", "2", .info, 2⟩]).drop
          (([⟨"a", "0", .info, 0⟩, ⟨"b", "1", .info, 1⟩,
             ⟨"c", "2", .info, 2⟩] : List EmitReq).length - 2)).filter
          (fun e => decide (1 ≤ e.seq)) :=
  eventStore_sinceSeq_ge 2 (by decide)
    [⟨"a", "0", .info, 0⟩, ⟨"b", "1", .info, 1⟩, ⟨"c", "2", .info, 2⟩] 1

/-- C2 counterexample: after a single emission (sequence number 0),
`sinceSeq(0)` returns that entry even though its sequence number is not
strictly greater than 0 — the comparison in the code is `>=`, not `>`. -/
theorem eventStore_sinceSeq_strict_cex :
    ((((EventStore.new 4).emit "a" "x" .info 0).1.sinceSeq 0).length = 1) ∧
    ((((EventStore.new 4).emit "a" "x" .info 0).1.sinceSeq 0).all
      (fun e => decide (0 < e.seq)) = false) := by
  decide

end Mcpd
